import Mathlib

/-!
A verification development for the `vocab-train` dataset-generation pipeline.

The JavaScript sources embedded here:
* `scripts/generate-datasets.mjs` — the main pipeline (collect → validate →
  write), with its quality gates;
* `scripts/sources/demo.mjs` — the bundled demo theme source;
* `scripts/sources/rest_countries_base.mjs` — the REST-countries canonical
  source adapter (its per-record loop);
* `scripts/sources/countries_derived_themes.mjs` — the theme-derivation
  engine (text classification utilities and grouping axes).

JavaScript strings are modelled as lists of UTF-16 code units (`JStr`);
every pipeline string in this development is in the basic multilingual
plane, where one unit is one code point, but the code-unit view is kept so
that the surrogate-pair stepping of `getInitial` is modelled faithfully.
-/
set_option maxRecDepth 10000

/-- A JavaScript string: a list of UTF-16 code units. -/
abbrev JStr := List Nat

/-- Literal helper: a Lean string literal (BMP characters only, which holds
for every literal in this file) viewed as its UTF-16 code units. -/
def js (s : String) : JStr := s.toList.map Char.toNat

/-- The JavaScript whitespace set used by `String.prototype.trim`:
WhiteSpace (TAB VT FF SP NBSP ZWNBSP and the Zs category) plus the
LineTerminator characters LF CR LS PS. -/
def isJsWs (u : Nat) : Bool :=
  u == 0x9 || u == 0xA || u == 0xB || u == 0xC || u == 0xD || u == 0x20 ||
  u == 0xA0 || u == 0x1680 ||
  (0x2000 ≤ u && u ≤ 0x200A) ||
  u == 0x2028 || u == 0x2029 || u == 0x202F || u == 0x205F ||
  u == 0x3000 || u == 0xFEFF

/-- Drop leading JS whitespace (the left half of `trim`). -/
def trimLeft (s : JStr) : JStr := s.dropWhile isJsWs

/-- Drop trailing JS whitespace (the right half of `trim`). -/
def trimRight (s : JStr) : JStr := (s.reverse.dropWhile isJsWs).reverse

/-- The model of `String.prototype.trim`. -/
def jsTrim (s : JStr) : JStr := trimRight (trimLeft s)

/-- Code-unit lexicographic order on strings.  Used to model
`a.localeCompare(b)`-driven sorts at the call sites of this pipeline, where
the compared keys are ASCII identifiers (theme ids, two-letter entity
codes); on those, the ICU order coincides with code-unit order. -/
def lexLe : JStr → JStr → Bool
  | [], _ => true
  | _ :: _, [] => false
  | a :: s, b :: t => if a = b then lexLe s t else decide (a < b)

/-- Stable insertion of `a` into `l`: `a` is placed before the first
element it compares `le` to.  `sortLe` below is the stable sort this
induces. -/
def insertLe (le : α → α → Bool) (a : α) : List α → List α
  | [] => [a]
  | b :: t => if le a b then a :: b :: t else b :: insertLe le a t

/-- Stable insertion sort.  `Array.prototype.sort` (ES2019 and later) is
specified to be stable, and with a consistent comparator a stable sort is
unique, so this models the JS sorts of the pipeline exactly. -/
def sortLe (le : α → α → Bool) : List α → List α
  | [] => []
  | a :: t => insertLe le a (sortLe le t)

/-- Tests `[a-z]` as a code unit. -/
def isLowerAlpha (u : Nat) : Bool := 0x61 ≤ u && u ≤ 0x7A

/-- Tests `[a-z0-9]` as a code unit. -/
def isLowerDigit (u : Nat) : Bool := isLowerAlpha u || (0x30 ≤ u && u ≤ 0x39)

mutual

/-- Matches the regex fragment `[a-z0-9]*(_[a-z0-9]+)*` (the part of
`SNAKE_CASE_RE` after its first character). -/
def snakeRest : JStr → Bool
  | [] => true
  | u :: rest => if u = 0x5F then snakeGroup rest else isLowerDigit u && snakeRest rest

/-- Matches the regex fragment `[a-z0-9]+(... )` after an underscore:
at least one `[a-z0-9]`, then back to `snakeRest`. -/
def snakeGroup : JStr → Bool
  | [] => false
  | u :: rest => isLowerDigit u && snakeRest rest

end

/-- The regex `SNAKE_CASE_RE = /^[a-z][a-z0-9]*(?:_[a-z0-9]+)*$/` from
`generate-datasets.mjs`. -/
def snakeCase : JStr → Bool
  | [] => false
  | u :: rest => isLowerAlpha u && snakeRest rest

/-- The regex `ISO2_RE = /^[A-Z]{2}$/` from `generate-datasets.mjs`. -/
def iso2re (s : JStr) : Bool :=
  match s with
  | [a, b] => (0x41 ≤ a && a ≤ 0x5A) && (0x41 ≤ b && b ≤ 0x5A)
  | _ => false

/-- A JavaScript value in one of the attribute positions of a candidate
record: a string, a boolean, `undefined`/`null` (`absent`), or any other
value, remembered only through its truthiness (all the code ever does with
a non-string non-boolean value is test its type or coerce it with
`Boolean`). -/
inductive JsAttr where
  | str (s : JStr)
  | bool (b : Bool)
  | absent
  | other (truthy : Bool)
deriving DecidableEq, Repr

/-- The test `typeof x === 'string' ? some x : none`. -/
def asStr : JsAttr → Option JStr
  | .str s => some s
  | _ => none

/-- The test `typeof x === 'boolean' ? some x : none`. -/
def asBool : JsAttr → Option Bool
  | .bool b => some b
  | _ => none

/-- The coercion `Boolean(x)`: the truthiness of a value (a string is truthy iff
non-empty, `undefined`/`null` are falsy). -/
def jsTruthy : JsAttr → Bool
  | .str s => !s.isEmpty
  | .bool b => b
  | .absent => false
  | .other t => t

/-- The idiom `typeof x === 'string' ? x.trim() : ''` (`asTrimmedString`,
used throughout the pipeline). -/
def trimOf (a : JsAttr) : JStr :=
  match asStr a with
  | some s => jsTrim s
  | none => []

/-! ## `generate-datasets.mjs`: answers cleaning -/
/-- The body of `uniqPreserveOrder`: `seen` is the set of strings already
emitted (in the source both `seen` and `out` receive exactly the same
elements, so membership in the output list is tracked through `seen`). -/
def uniqGo (seen : List JStr) : List JStr → List JStr
  | [] => []
  | x :: rest => if x ∈ seen then uniqGo seen rest else x :: uniqGo (x :: seen) rest

/-- The function `uniqPreserveOrder` from `generate-datasets.mjs`: remove duplicates,
keeping the first occurrence of each string. -/
def uniqPreserveOrder (l : List JStr) : List JStr := uniqGo [] l

/-- The string pipeline inside `sanitizeAnswers`:
`.filter(typeof string).map(trim).filter(≠ '')` then `uniqPreserveOrder`.
The input is the element list of the `answers` array. -/
def sanitizeAnswers (answers : List JsAttr) : List JStr :=
  uniqPreserveOrder (((answers.filterMap asStr).map jsTrim).filter (· ≠ []))

/-! ## `generate-datasets.mjs`: data model of candidate and output records -/
/-- A `ThemeSpec` candidate as collected from a source: each field is an
arbitrary JS value; `answers` is `some` element list when the value is an
array and `none` otherwise. -/
structure RawTheme where
  id : JsAttr
  title : JsAttr
  categoryId : JsAttr
  categoryTitle : JsAttr
  answers : Option (List JsAttr)
deriving DecidableEq, Repr

/-- A validated theme as pushed onto `themesOut` (and later written). -/
structure Theme where
  id : JStr
  title : JStr
  categoryId : JStr
  categoryTitle : JStr
  answers : List JStr
deriving DecidableEq, Repr

/-- A candidate entity of a canonical dataset (`entities[]` element). -/
structure RawEntity where
  id : JsAttr
  label_ja : JsAttr
  label_en : JsAttr
  continent : JsAttr
  region : JsAttr
  landlocked : JsAttr
  unMember : JsAttr
  capital : JsAttr
deriving DecidableEq, Repr

/-- A cleaned entity as stored in the canonical `countries_base` artifact.
Optional attributes use `Option`, with `none` standing for JSON `null`.
`landlocked` is also given the `Option Bool` type of a nullable JSON
boolean so that what the code stores there can be compared against the
spec's explicit-absent marker. -/
structure CleanEntity where
  id : JStr
  label_ja : JStr
  label_en : JStr
  continent : Option JStr
  region : Option JStr
  landlocked : Option Bool
  unMember : Option Bool
  capital : Option JStr
deriving DecidableEq, Repr

/-- The expression `typeof e?.id === 'string' ? e.id.trim() : ''` — the key a candidate
entity is validated under. -/
def rawIso2 (e : RawEntity) : JStr := trimOf e.id

/-- The object literal pushed onto `cleanedEntities`
(`generate-datasets.mjs` lines 262–273): `label_ja: labelJa || labelEn`,
`continent`/`region` copied verbatim when strings else `null`,
`landlocked: Boolean(e?.landlocked)`,
`unMember: typeof boolean ? it : null`,
`capital: typeof string ? (trim || null) : null`. -/
def cleanEntity (e : RawEntity) : CleanEntity :=
  let labelJa := trimOf e.label_ja
  let labelEn := trimOf e.label_en
  { id := rawIso2 e
    label_ja := if labelJa = [] then labelEn else labelJa
    label_en := labelEn
    continent := asStr e.continent
    region := asStr e.region
    landlocked := some (jsTruthy e.landlocked)
    unMember := asBool e.unMember
    capital :=
      match asStr e.capital with
      | some s => if jsTrim s = [] then none else some (jsTrim s)
      | none => none }

/-- The `for (const e of entities)` loop of the `countries_base` branch:
`seen` is the `seenIso2` set, `acc` the `cleanedEntities` array.  The
returned boolean is `true` when the loop hit `fail(...); break;` (bad or
duplicate ISO2 code, or empty `label_en`). -/
def cleanEntities (seen : List JStr) (acc : List CleanEntity) :
    List RawEntity → List CleanEntity × Bool
  | [] => (acc, false)
  | e :: rest =>
      let iso2 := rawIso2 e
      if ¬ iso2re iso2 then (acc, true)
      else if iso2 ∈ seen then (acc, true)
      else if trimOf e.label_en = [] then (acc, true)
      else cleanEntities (iso2 :: seen) (acc ++ [cleanEntity e]) rest

/-- A `DatasetSpec` candidate as collected from a source. -/
structure RawDataset where
  kind : JsAttr
  id : JsAttr
  entities : Option (List RawEntity)
deriving DecidableEq, Repr

/-- A validated canonical dataset as pushed onto `datasetsOut`. -/
structure DatasetOut where
  id : JStr
  schema : JStr
  entities : List CleanEntity
deriving DecidableEq, Repr

/-! ## `generate-datasets.mjs`: validation state and the two validate loops -/
/-- Models `Map.get` over an insertion-ordered association list. -/
def getAssoc (k : JStr) : List (JStr × JStr) → Option JStr
  | [] => none
  | (k', v) :: rest => if k' = k then some v else getAssoc k rest

/-- Models `Map.set` over an insertion-ordered association list. -/
def setAssoc (k v : JStr) : List (JStr × JStr) → List (JStr × JStr)
  | [] => [(k, v)]
  | (k', v') :: rest => if k' = k then (k, v) :: rest else (k', v') :: setAssoc k v rest

/-- The mutable validation state of `main`: the key set of the `byId` map
(themes and canonical ids share one namespace), the
`categoryTitleById` map, the `themesOut` and `datasetsOut` arrays, and the
`process.exitCode === 1` failure flag. -/
structure GState where
  byId : List JStr
  catTitle : List (JStr × JStr)
  themes : List Theme
  datasets : List DatasetOut
  failed : Bool
deriving DecidableEq, Repr

def GState.init : GState := ⟨[], [], [], [], false⟩

/-- Models `fail(...)`: set `process.exitCode = 1`. -/
def GState.fail (st : GState) : GState := { st with failed := true }

/-- One iteration of the `for (const t of collectedThemes)` loop. -/
def validateTheme (st : GState) (t : RawTheme) : GState :=
  match asStr t.id with
  | none => st.fail
  | some id =>
    if jsTrim id = [] then st.fail
    else if ¬ snakeCase id then st.fail
    else if id ∈ st.byId then st.fail
    else match asStr t.title with
    | none => st.fail
    | some title =>
      if jsTrim title = [] then st.fail
      else match asStr t.categoryId with
      | none => st.fail
      | some categoryId =>
        if jsTrim categoryId = [] then st.fail
        else if ¬ snakeCase categoryId then st.fail
        else match asStr t.categoryTitle with
        | none => st.fail
        | some categoryTitle =>
          if jsTrim categoryTitle = [] then st.fail
          else
            -- categoryTitle consistency gate: `existingTitle &&
            -- existingTitle !== categoryTitle` (truthiness of the string)
            match getAssoc categoryId st.catTitle with
            | some existing =>
              if existing ≠ [] ∧ existing ≠ categoryTitle then st.fail
              else validateThemeTail st t id title categoryId categoryTitle
            | none => validateThemeTail st t id title categoryId categoryTitle

where
  /-- The tail of the loop body after the consistency gate:
  register the category title, sanitize the answers, reject an empty
  result, and push the normalized theme. -/
  validateThemeTail (st : GState) (t : RawTheme)
      (id title categoryId categoryTitle : JStr) : GState :=
    let st1 := { st with catTitle := setAssoc categoryId categoryTitle st.catTitle }
    match t.answers with
    | none => st1.fail  -- `sanitizeAnswers` fails on a non-array, result []
    | some arr =>
      let answers := sanitizeAnswers arr
      if answers = [] then st1.fail
      else
        { st1 with
          byId := id :: st1.byId
          themes := st1.themes ++
            [{ id := id, title := jsTrim title, categoryId := jsTrim categoryId
               categoryTitle := jsTrim categoryTitle, answers := answers }] }

/-- One iteration of the `for (const d of collectedDatasets)` loop. -/
def validateDataset (st : GState) (d : RawDataset) : GState :=
  if d.kind ≠ JsAttr.str (js ("canonical")) then st.fail
  else match asStr d.id with
  | none => st.fail
  | some id =>
    if jsTrim id = [] then st.fail
    else if ¬ snakeCase id then st.fail
    else if id ∈ st.byId then st.fail
    else if id = js ("countries_base") then
      match d.entities with
      | none => st.fail
      | some [] => st.fail
      | some es =>
        let r := cleanEntities [] [] es
        let st1 := if r.2 then st.fail else st
        -- `if (process.exitCode === 1) continue;` — note this also skips
        -- the push when an earlier record already failed the run
        if st1.failed then st1
        else
          let sorted := sortLe (fun a b => lexLe a.id b.id) r.1
          { st1 with
            byId := id :: st1.byId
            datasets := st1.datasets ++
              [{ id := id, schema := js ("countries_base_v2"), entities := sorted }] }
    else st.fail

/-! ## `generate-datasets.mjs`: collect phase and `main` -/
/-- What one source module yields in the collect phase.  The outer
`Option` is `typeof mod.fetchX === 'function'`; the inner `Option` is
`none` when the call returned a non-array. -/
structure SourceResult where
  themes : Option (Option (List RawTheme))
  datasets : Option (Option (List RawDataset))
deriving DecidableEq, Repr

/-- The result of the collect phase. -/
structure Collected where
  themes : List RawTheme
  datasets : List RawDataset
  failed : Bool
deriving DecidableEq, Repr

/-- One iteration of the `for (const mod of SOURCES)` loop.  A non-array
`fetchThemes` result hits `fail(...); continue;`, skipping the rest of the
iteration for that source (including its `fetchDatasets`). -/
def collectStep (acc : Collected) (src : SourceResult) : Collected :=
  match src.themes, src.datasets with
  | some none, _ => { acc with failed := true }
  | some (some ts), some none => { acc with themes := acc.themes ++ ts, failed := true }
  | some (some ts), some (some ds) =>
      { acc with themes := acc.themes ++ ts, datasets := acc.datasets ++ ds }
  | some (some ts), none => { acc with themes := acc.themes ++ ts }
  | none, some none => { acc with failed := true }
  | none, some (some ds) => { acc with datasets := acc.datasets ++ ds }
  | none, none => { acc with failed := true }

/-- The collect phase over the `SOURCES` list. -/
def collect (srcs : List SourceResult) : Collected :=
  srcs.foldl collectStep ⟨[], [], false⟩

/-- The outcome of one `main` run: the failure flag at exit and the
artifacts written in phase 4 (themes to `datasets/`, canonical datasets to
`datasets/canonical/`), in write order. -/
structure RunResult where
  failed : Bool
  themeWrites : List Theme
  datasetWrites : List DatasetOut
deriving DecidableEq, Repr

/-- The function `main()` from `generate-datasets.mjs`, parameterized by the comparator
`le` standing for the default-locale `localeCompare` used to sort the
write order.  Phase 1 collects; a failure there returns before validation.
Phases 2 and 3 validate themes then datasets (datasets are validated even
if a theme failed); a failure flag at the end returns before phase 4.
Phase 4 writes both artifact families in sorted order. -/
def runMain (le : JStr → JStr → Bool) (srcs : List SourceResult) : RunResult :=
  let c := collect srcs
  if c.failed then ⟨true, [], []⟩
  else
    let st1 := c.themes.foldl validateTheme GState.init
    let st2 := c.datasets.foldl validateDataset st1
    if st2.failed then ⟨true, [], []⟩
    else
      ⟨false,
       sortLe (fun a b => le a.id b.id) st2.themes,
       sortLe (fun a b => le a.id b.id) st2.datasets⟩

/-! ## `rest_countries_base.mjs`: the adapter's per-record loop -/
/-- One record of the REST-countries API response, reduced to the fields
the adapter reads.  `capital0` is `some` first element when `c?.capital`
is an array, `none` otherwise. -/
structure RawCountry where
  cca2 : JsAttr
  nameCommon : JsAttr
  translationJa : JsAttr
  continent0 : JsAttr
  subregion : JsAttr
  landlocked : JsAttr
  unMember : JsAttr
  capital0 : Option JsAttr
deriving DecidableEq, Repr

/-- The entity object the adapter builds for one accepted record
(`rest_countries_base.mjs` lines 69–90). -/
def restEntity (c : RawCountry) (iso2 labelJa labelEn : JStr) : CleanEntity :=
  { id := iso2
    label_ja := labelJa
    label_en := labelEn
    continent := if trimOf c.continent0 = [] then none else some (trimOf c.continent0)
    region := if trimOf c.subregion = [] then none else some (trimOf c.subregion)
    landlocked := some (jsTruthy c.landlocked)
    unMember := asBool c.unMember
    capital :=
      match c.capital0 with
      | some (.str s) => if jsTrim s = [] then none else some (jsTrim s)
      | _ => none }

/-- The `for (const c of data)` loop of `fetchDatasets` in
`rest_countries_base.mjs`: `acc` is the insertion-ordered `byIso2` map.
Records without a usable `cca2` are skipped; a duplicate `cca2` throws
(`none`); a record without an English name is skipped (non-fatal). -/
def restLoop (acc : List (JStr × CleanEntity)) :
    List RawCountry → Option (List (JStr × CleanEntity))
  | [] => some acc
  | c :: rest =>
      let iso2 := trimOf c.cca2
      if iso2 = [] then restLoop acc rest
      else if ¬ iso2re iso2 then restLoop acc rest
      else if (acc.map Prod.fst).contains iso2 then none
      else
        let labelEn := trimOf c.nameCommon
        let labelJa := if trimOf c.translationJa = [] then labelEn
                       else trimOf c.translationJa
        if labelEn = [] then restLoop acc rest
        else restLoop (acc ++ [(iso2, restEntity c iso2 labelJa labelEn)]) rest

/-! ## `countries_derived_themes.mjs`: text classification utilities

`String.prototype.normalize` is a Unicode library call; it is modelled
here by a table restricted to the code points this pipeline ever
classifies.  `nfkcCp` lists the compatibility decompositions that occur
(fullwidth ASCII forms and the ideographic space) and is the identity
elsewhere; on kana, Latin letters and all the concrete strings of this
development this agrees with real NFKC, and the strings here are already
composed, so the per-code-point view is exact on them. -/
/-- Partial model of the NFKC mapping of one code point (see section
comment). -/
def nfkcCp (cp : Nat) : List Nat :=
  if 0xFF01 ≤ cp ∧ cp ≤ 0xFF5E then [cp - 0xFEE0]
  else if cp = 0x3000 then [0x20]
  else [cp]

/-- Partial model of `s.normalize('NFKC')` (see section comment). -/
def nfkc (s : JStr) : JStr := s.flatMap nfkcCp

/-- Models `s.codePointAt(i)` at the unit `u` followed by `rest`: a high
surrogate followed by a low surrogate combines into an astral code point;
anything else (including a lone surrogate) is returned as is. -/
def cpAt (u : Nat) (rest : JStr) : Nat :=
  if 0xD800 ≤ u ∧ u ≤ 0xDBFF then
    match rest with
    | v :: _ =>
        if 0xDC00 ≤ v ∧ v ≤ 0xDFFF then 0x10000 + (u - 0xD800) * 0x400 + (v - 0xDC00)
        else u
    | [] => u
  else u

/-- Models `String.fromCodePoint(cp)` as UTF-16 units. -/
def encodeCp (cp : Nat) : JStr :=
  if cp ≤ 0xFFFF then [cp]
  else [0xD800 + (cp - 0x10000) / 0x400, 0xDC00 + (cp - 0x10000) % 0x400]

/-- The `SKIP` set of `getInitial`: brackets, quotes, mid-dot, hyphen
variants, period/comma variants and the ideographic space. -/
def isSkipCp (cp : Nat) : Bool :=
  [0x28, 0x29, 0xFF08, 0xFF09, 0x5B, 0x5D,
   0x300C, 0x300D, 0x300E, 0x300F, 0x22, 0x27, 0x30FB,
   0x2D, 0x2014, 0x2013, 0x2E, 0x2C, 0x3001, 0x3002, 0x3000].contains cp

/-- The `while (i < s.length)` loop of `getInitial`: decode a code point,
advance by two units for an astral code point and one otherwise while it
is in the skip set, and return the first code point that is not. -/
def getInitialLoop : JStr → JStr
  | [] => []
  | u :: rest =>
      let cp := cpAt u rest
      if isSkipCp cp then
        if cp > 0xFFFF then
          match rest with
          | [] => []
          | _ :: t => getInitialLoop t
        else getInitialLoop rest
      else encodeCp cp

/-- The function `getInitial` from `countries_derived_themes.mjs`: NFKC-normalize,
trim, then skip leading skip-set characters code point by code point. -/
def getInitial (labelJa : JStr) : JStr :=
  let s := jsTrim (nfkc labelJa)
  if s = [] then [] else getInitialLoop s

/-- One lowercase hexadecimal digit (`Number.prototype.toString(16)`). -/
def hexDig (n : Nat) : Nat := if n < 10 then 0x30 + n else 0x61 + (n - 10)

/-- Models `cp.toString(16)` as a unit list (lowercase, no leading zeros). -/
def hexRep (n : Nat) : JStr :=
  if _h : n < 16 then [hexDig n] else hexRep (n / 16) ++ [hexDig (n % 16)]
termination_by n
decreasing_by exact Nat.div_lt_self (by omega) (by omega)

/-- Models `hex.length >= 4 ? hex : hex.padStart(4, '0')`. -/
def hexPad (n : Nat) : JStr :=
  let h := hexRep n
  if 4 ≤ h.length then h else List.replicate (4 - h.length) 0x30 ++ h

/-- The test `/^[A-Za-z0-9]$/` on the single-code-point string for `cp` (an astral
code point has string length 2 and never matches). -/
def isAsciiAlnum (cp : Nat) : Bool :=
  (0x41 ≤ cp && cp ≤ 0x5A) || (0x61 ≤ cp && cp ≤ 0x7A) || (0x30 ≤ cp && cp ≤ 0x39)

/-- Models `toLowerCase` on an ASCII alphanumeric code point. -/
def lowerCp (cp : Nat) : Nat := if 0x41 ≤ cp ∧ cp ≤ 0x5A then cp + 0x20 else cp

/-- The function `initialToIdToken` from `countries_derived_themes.mjs`: trim, take the
first code point; an ASCII alphanumeric becomes itself lowercased,
anything else becomes `u` followed by its hexadecimal code point padded to
at least four digits. -/
def initialToIdToken (initial : JStr) : JStr :=
  match jsTrim initial with
  | [] => []
  | u :: rest =>
      let cp := cpAt u rest
      if isAsciiAlnum cp then [lowerCp cp]
      else 0x75 :: hexPad cp

/-- Katakana → hiragana: `U+30A1..U+30F6` shifted down by `0x60`. -/
def kataToHira (cp : Nat) : Nat :=
  if 0x30A1 ≤ cp ∧ cp ≤ 0x30F6 then cp - 0x60 else cp

/-- Models `hira.normalize('NFD').replace(/[゙゚]/g, '').normalize('NFC')`
on the single-code-point string for `cp`.  In canonical decomposition only
kana decompose to a base plus U+3099/U+309A, so this maps each voiced or
semi-voiced kana to its base, erases a bare combining mark, and is the
identity elsewhere. -/
def stripVoicingStr (cp : Nat) : List Nat :=
  if cp = 0x3099 ∨ cp = 0x309A then []
  else [
    match cp with
    | 0x304C => 0x304B | 0x304E => 0x304D | 0x3050 => 0x304F
    | 0x3052 => 0x3051 | 0x3054 => 0x3053
    | 0x3056 => 0x3055 | 0x3058 => 0x3057 | 0x305A => 0x3059
    | 0x305C => 0x305B | 0x305E => 0x305D
    | 0x3060 => 0x305F | 0x3062 => 0x3061 | 0x3065 => 0x3064
    | 0x3067 => 0x3066 | 0x3069 => 0x3068
    | 0x3070 => 0x306F | 0x3073 => 0x3072 | 0x3076 => 0x3075
    | 0x3079 => 0x3078 | 0x307C => 0x307B
    | 0x3071 => 0x306F | 0x3074 => 0x3072 | 0x3077 => 0x3075
    | 0x307A => 0x3078 | 0x307D => 0x307B
    | 0x3094 => 0x3046 | 0x309E => 0x309D
    | 0x30F4 => 0x30A6 | 0x30F7 => 0x30EF | 0x30F8 => 0x30F0
    | 0x30F9 => 0x30F1 | 0x30FA => 0x30F2 | 0x30FE => 0x30FD
    | 0x30AC => 0x30AB | 0x30AE => 0x30AD | 0x30B0 => 0x30AF
    | 0x30B2 => 0x30B1 | 0x30B4 => 0x30B3
    | 0x30B6 => 0x30B5 | 0x30B8 => 0x30B7 | 0x30BA => 0x30B9
    | 0x30BC => 0x30BB | 0x30BE => 0x30BD
    | 0x30C0 => 0x30BF | 0x30C2 => 0x30C1 | 0x30C5 => 0x30C4
    | 0x30C7 => 0x30C6 | 0x30C9 => 0x30C8
    | 0x30D0 => 0x30CF | 0x30D3 => 0x30D2 | 0x30D6 => 0x30D5
    | 0x30D9 => 0x30D8 | 0x30DC => 0x30DB
    | 0x30D1 => 0x30CF | 0x30D4 => 0x30D2 | 0x30D7 => 0x30D5
    | 0x30DA => 0x30D8 | 0x30DD => 0x30DB
    | c => c]

/-- The `SMALL_TO_BIG` lookup table (small kana to full-size kana),
with the `?? decomp` fallback. -/
def smallToBig (cp : Nat) : Nat :=
  match cp with
  | 0x3041 => 0x3042 | 0x3043 => 0x3044 | 0x3045 => 0x3046
  | 0x3047 => 0x3048 | 0x3049 => 0x304A
  | 0x3083 => 0x3084 | 0x3085 => 0x3086 | 0x3087 => 0x3088
  | 0x3063 => 0x3064 | 0x308E => 0x308F
  | c => c

/-- The function `normalizeKanaForRow` from `countries_derived_themes.mjs`: NFKC +
trim, first code point, katakana→hiragana shift, voicing-mark strip,
small-kana fold. -/
def normalizeKanaForRow (ch : JStr) : JStr :=
  match jsTrim (nfkc ch) with
  | [] => []
  | u :: rest =>
      match stripVoicingStr (kataToHira (cpAt u rest)) with
      | [] => []
      | d :: _ => encodeCp (smallToBig d)

/-- One entry of the `ROWS` table. -/
structure RowMeta where
  token : JStr
  nameJa : JStr
  rep : JStr
  chars : List Nat
deriving DecidableEq, Repr

/-- The `ROWS` table: the ten fixed kana row buckets. -/
def ROWS : List RowMeta :=
  [⟨js ("a"), js ("あ行"), js ("ア"), js ("あいうえおゔ")⟩,
   ⟨js ("ka"), js ("か行"), js ("カ"), js ("かきくけこ")⟩,
   ⟨js ("sa"), js ("さ行"), js ("サ"), js ("さしすせそ")⟩,
   ⟨js ("ta"), js ("た行"), js ("タ"), js ("たちつてと")⟩,
   ⟨js ("na"), js ("な行"), js ("ナ"), js ("なにぬねの")⟩,
   ⟨js ("ha"), js ("は行"), js ("ハ"), js ("はひふへほ")⟩,
   ⟨js ("ma"), js ("ま行"), js ("マ"), js ("まみむめも")⟩,
   ⟨js ("ya"), js ("や行"), js ("ヤ"), js ("やゆよ")⟩,
   ⟨js ("ra"), js ("ら行"), js ("ラ"), js ("らりるれろ")⟩,
   ⟨js ("wa"), js ("わ行"), js ("ワ"), js ("わを")⟩]

/-- The function `getRowMetaFromInitial`: normalize the initial, reject anything whose
first code point is outside the hiragana block, then return the first row
whose character set contains it. -/
def getRowMetaFromInitial (initialChar : JStr) : Option RowMeta :=
  match normalizeKanaForRow initialChar with
  | [] => none
  | u :: rest =>
      let cp := cpAt u rest
      if cp < 0x3040 ∨ 0x309F < cp then none
      else ROWS.find? (fun row => row.chars.contains cp)

/-! ## `countries_derived_themes.mjs`: grouping and theme synthesis -/
/-- Models `Map.get` over a generically keyed insertion-ordered association
list. -/
def lookupGroup [DecidableEq κ] (k : κ) : List (κ × List JStr) → Option (List JStr)
  | [] => none
  | (k', vs) :: rest => if k' = k then some vs else lookupGroup k rest

/-- Models `const arr = map.get(k) ?? []; arr.push(v); map.set(k, arr);` over an
insertion-ordered association list. -/
def pushGroup [DecidableEq κ] (m : List (κ × List JStr)) (k : κ) (v : JStr) :
    List (κ × List JStr) :=
  match m with
  | [] => [(k, [v])]
  | (k', vs) :: rest =>
      if k' = k then (k', vs ++ [v]) :: rest else (k', vs) :: pushGroup rest k v

/-- The function `uniqSortedJa` from `countries_derived_themes.mjs`, parameterized by
the comparator `le` standing for `localeCompare` with the `ja` locale:
trim, drop empties, deduplicate in insertion order, then sort. -/
def uniqSortedJa (le : JStr → JStr → Bool) (values : List JStr) : List JStr :=
  sortLe le (uniqPreserveOrder ((values.map jsTrim).filter (· ≠ [])))

/-- The `LABEL_JA_MAP` lookup table. -/
def LABEL_JA_MAP : List (JStr × JStr) :=
  [(js ("Asia"), js ("アジア")),
   (js ("Europe"), js ("ヨーロッパ")),
   (js ("Africa"), js ("アフリカ")),
   (js ("Oceania"), js ("オセアニア")),
   (js ("Americas"), js ("アメリカ大陸")),
   (js ("South-Eastern Asia"), js ("東南アジア")),
   (js ("Eastern Asia"), js ("東アジア")),
   (js ("Western Asia"), js ("西アジア")),
   (js ("North America"), js ("北アメリカ")),
   (js ("South America"), js ("南アメリカ")),
   (js ("Antarctica"), js ("南極"))]

/-- The function `labelJaOrEnglish`: trim, then look the name up in `LABEL_JA_MAP`,
falling back to the original. -/
def labelJaOrEnglish (raw : JStr) : JStr :=
  let s := jsTrim raw
  if s = [] then [] else (getAssoc s LABEL_JA_MAP).getD s

/-- Models `toLowerCase` on ASCII (the grouping keys fed to
`slugifySnake` are ASCII region names; elsewhere the identity). -/
def jsToLower (cp : Nat) : Nat := lowerCp cp

mutual

/-- The replacement `.replace(/[^a-z0-9]+/g, '_')`: each maximal run of non-`[a-z0-9]`
characters becomes one underscore. -/
def slugCore : JStr → JStr
  | [] => []
  | u :: rest =>
      if isLowerDigit u then u :: slugCore rest
      else 0x5F :: slugSkip rest

/-- Inside a non-alphanumeric run (its underscore already emitted): skip
until the next `[a-z0-9]` character and resume. -/
def slugSkip : JStr → JStr
  | [] => []
  | u :: rest =>
      if isLowerDigit u then u :: slugCore rest
      else slugSkip rest

end

/-- The function `slugifySnake` from `countries_derived_themes.mjs`: trim, lowercase,
collapse non-alphanumeric runs to underscores, strip edge underscores
(after the collapse the final `/_+/ → _` pass is the identity). -/
def slugifySnake (value : JStr) : JStr :=
  let t := slugCore ((jsTrim value).map jsToLower)
  ((t.dropWhile (· = 0x5F)).reverse.dropWhile (· = 0x5F)).reverse

/-- The five grouping maps built by the entity loop of `fetchThemes`. -/
structure DerivedGroups where
  byContinent : List (JStr × List JStr)
  bySubregion : List (JStr × List JStr)
  byLandlocked : List (Bool × List JStr)
  byInitialChar : List (JStr × List JStr)
  byInitialRow : List (JStr × List JStr)
deriving DecidableEq, Repr

/-- One iteration of the entity loop of the derivation engine's
`fetchThemes`: skip entities that are not verified UN members or lack a
non-empty localized name; push the name into each applicable axis map. -/
def derivedStep (g : DerivedGroups) (e : CleanEntity) : DerivedGroups :=
  if e.unMember ≠ some true then g
  else
    let labelJa := jsTrim e.label_ja
    if labelJa = [] then g
    else
      let initialChar := getInitial labelJa
      let rowMeta := if initialChar = [] then none else getRowMetaFromInitial initialChar
      let g := match e.continent with
        | some k => if k ≠ [] then { g with byContinent := pushGroup g.byContinent k labelJa } else g
        | none => g
      let g := match e.region with
        | some k => if k ≠ [] then { g with bySubregion := pushGroup g.bySubregion k labelJa } else g
        | none => g
      let g := match e.landlocked with
        | some b => { g with byLandlocked := pushGroup g.byLandlocked b labelJa }
        | none => g
      let g := if initialChar ≠ [] then
          { g with byInitialChar := pushGroup g.byInitialChar initialChar labelJa } else g
      match rowMeta with
      | some row => { g with byInitialRow := pushGroup g.byInitialRow row.token labelJa }
      | none => g

/-- The shared `categoryId`/`categoryTitle` of every derived theme. -/
def geoCategoryId : JStr := js ("geography")

def geoCategoryTitle : JStr := js ("地理")

/-- The per-key emission of the continent axis (loop a): fewer than 10
distinct answers yields no theme. -/
def continentThemeOf (le : JStr → JStr → Bool) (k : JStr) (names : List JStr) :
    Option Theme :=
  let answers := uniqSortedJa le names
  if answers.length < 10 then none
  else some
    { id := js ("countries_continent_") ++ slugifySnake k
      title := labelJaOrEnglish k ++ js ("の国連加盟国")
      categoryId := geoCategoryId, categoryTitle := geoCategoryTitle
      answers := answers }

/-- The per-key emission of the subregion axis (loop b). -/
def subregionThemeOf (le : JStr → JStr → Bool) (k : JStr) (names : List JStr) :
    Option Theme :=
  let answers := uniqSortedJa le names
  if answers.length < 10 then none
  else some
    { id := js ("countries_subregion_") ++ slugifySnake k
      title := labelJaOrEnglish k ++ js ("の国連加盟国")
      categoryId := geoCategoryId, categoryTitle := geoCategoryTitle
      answers := answers }

/-- The per-key emission of the landlocked axis (loop c). -/
def landlockedThemeOf (le : JStr → JStr → Bool) (b : Bool) (names : List JStr) :
    Option Theme :=
  let answers := uniqSortedJa le names
  if answers.length < 10 then none
  else some
    { id := js ("countries_landlocked_") ++ (if b then js ("true") else js ("false"))
      title := if b then js ("内陸の国連加盟国") else js ("沿岸の国連加盟国")
      categoryId := geoCategoryId, categoryTitle := geoCategoryTitle
      answers := answers }

/-- The per-key emission of the initial-character axis (loop d-1): after
the size gate, an empty id token also suppresses the theme. -/
def initialCharThemeOf (le : JStr → JStr → Bool) (k : JStr) (names : List JStr) :
    Option Theme :=
  let answers := uniqSortedJa le names
  if answers.length < 10 then none
  else
    let token := initialToIdToken k
    if token = [] then none
    else some
      { id := js ("countries_initial_char_") ++ token
        title := k ++ js ("で始まる国連加盟国")
        categoryId := geoCategoryId, categoryTitle := geoCategoryTitle
        answers := answers }

/-- The per-row emission of the kana-row axis (loop d-2), iterating the
fixed `ROWS` table and looking each token up in the grouping map. -/
def initialRowThemeOf (le : JStr → JStr → Bool)
    (m : List (JStr × List JStr)) (row : RowMeta) : Option Theme :=
  match lookupGroup row.token m with
  | none => none
  | some names =>
      let answers := uniqSortedJa le names
      if answers.length < 10 then none
      else some
        { id := js ("countries_initial_row_") ++ row.token
          title := row.rep ++ js ("（") ++ row.nameJa ++ js ("）で始まる国連加盟国")
          categoryId := geoCategoryId, categoryTitle := geoCategoryTitle
          answers := answers }

/-- The body of the derivation engine's `fetchThemes`, applied to the
entity list of the canonical `countries_base` artifact: build the five
grouping maps, emit each axis, and sort all themes by id. -/
def derivedThemes (le : JStr → JStr → Bool) (entities : List CleanEntity) : List Theme :=
  let g := entities.foldl derivedStep ⟨[], [], [], [], []⟩
  ((g.byContinent.filterMap (fun kv => continentThemeOf le kv.1 kv.2)) ++
   (g.bySubregion.filterMap (fun kv => subregionThemeOf le kv.1 kv.2)) ++
   (g.byLandlocked.filterMap (fun kv => landlockedThemeOf le kv.1 kv.2)) ++
   (g.byInitialChar.filterMap (fun kv => initialCharThemeOf le kv.1 kv.2)) ++
   (ROWS.filterMap (initialRowThemeOf le g.byInitialRow))) |>
    sortLe (fun a b => le a.id b.id)

/-- The continent-axis result for one grouping key, as a single function
of the entity list: the group looked up in the built map, passed through
the emission gate. -/
def continentThemeFor (le : JStr → JStr → Bool) (entities : List CleanEntity)
    (k : JStr) : Option Theme :=
  match lookupGroup k (entities.foldl derivedStep ⟨[], [], [], [], []⟩).byContinent with
  | none => none
  | some names => continentThemeOf le k names

/-- A well-formed emitted theme: a non-empty answers list of trimmed,
non-empty, pairwise-distinct strings. -/
def themeOK (t : Theme) : Prop :=
  t.answers ≠ [] ∧ t.answers.Nodup ∧ ∀ a ∈ t.answers, jsTrim a = a ∧ a ≠ []

/-- The contribution of one entity to the continent grouping map: the key
and pushed name when the entity loop pushes one, `none` otherwise. -/
def contribOf (e : CleanEntity) : Option (JStr × JStr) :=
  if e.unMember = some true ∧ jsTrim e.label_ja ≠ [] then
    match e.continent with
    | some k => if k ≠ [] then some (k, jsTrim e.label_ja) else none
    | none => none
  else none

/-- The names the entity loop pushes into the continent group of key
`k`, in entity order. -/
def continentNames (es : List CleanEntity) (k : JStr) : List JStr :=
  es.filterMap (fun e =>
    match contribOf e with
    | some (k', v) => if k' = k then some v else none
    | none => none)

/-! ## Lemmas: hexadecimal tokens (`initialToIdToken`) -/
/-- The value of one lowercase hexadecimal digit character. -/
def digVal (d : Nat) : Nat := if d < 0x3A then d - 0x30 else d - 0x61 + 10

/-- The numeric value of a hexadecimal digit string. -/
def hexVal (l : JStr) : Nat := l.foldl (fun acc d => acc * 16 + digVal d) 0

/-! ## Lemmas: `getInitial` as decode-then-skip -/
/-- Decode a UTF-16 unit list into the code-point sequence
`codePointAt`/surrogate-pair stepping traverses. -/
def cpDecode : JStr → List Nat
  | [] => []
  | u :: rest =>
      if cpAt u rest > 0xFFFF then
        cpAt u rest :: (match rest with | [] => [] | _ :: t => cpDecode t)
      else cpAt u rest :: cpDecode rest

/-! ## Concrete fixtures -/
/-- The first theme of `scripts/sources/demo.mjs`: `demo_fruits` (note the
blank and the repeated entry in `answers`). -/
def demoFruits : RawTheme :=
  { id := .str (js ("demo_fruits")), title := .str (js ("フルーツ"))
    categoryId := .str (js ("demo")), categoryTitle := .str (js ("デモ"))
    answers := some [.str (js ("りんご")), .str (js ("バナナ")), .str (js ("みかん")),
      .str (js ("ぶどう")), .str (js ("  ")), .str (js ("りんご"))] }

/-- The second theme of `scripts/sources/demo.mjs`: `demo_colors`. -/
def demoColors : RawTheme :=
  { id := .str (js ("demo_colors")), title := .str (js ("色"))
    categoryId := .str (js ("demo")), categoryTitle := .str (js ("デモ"))
    answers := some [.str (js ("赤")), .str (js ("青")), .str (js ("緑")),
      .str (js ("黄")), .str (js ("黒")), .str (js ("白")), .str (js ("青"))] }

/-- The demo source module: exports `fetchThemes` only. -/
def demoSource : SourceResult := ⟨some (some [demoFruits, demoColors]), none⟩

/-- The `demo_colors` output record as validated and written. -/
def demoColorsOut : Theme :=
  { id := js ("demo_colors"), title := js ("色")
    categoryId := js ("demo"), categoryTitle := js ("デモ")
    answers := [js ("赤"), js ("青"), js ("緑"), js ("黄"), js ("黒"), js ("白")] }

/-- A candidate entity whose `landlocked` attribute is absent. -/
def noLandlockedEntity : RawEntity :=
  { id := .str (js ("AW")), label_ja := .str (js ("アルバ"))
    label_en := .str (js ("Aruba")), continent := .str (js ("Americas"))
    region := .absent, landlocked := .absent, unMember := .absent, capital := .absent }

def c3Dataset : RawDataset :=
  ⟨.str (js ("canonical")), .str (js ("countries_base")), some [noLandlockedEntity]⟩

def c3Source : SourceResult := ⟨none, some (some [c3Dataset])⟩

/-- A candidate entity whose English name is blank after trimming. -/
def emptyEnEntity : RawEntity :=
  { id := .str (js ("AB")), label_ja := .str (js ("アブハジア"))
    label_en := .str (js ("   ")), continent := .absent, region := .absent
    landlocked := .bool false, unMember := .bool true, capital := .absent }

/-- A fully valid candidate entity following the blank-name one. -/
def goodEntity : RawEntity :=
  { id := .str (js ("AC")), label_ja := .str (js ("アクランド"))
    label_en := .str (js ("Acland")), continent := .str (js ("Asia"))
    region := .absent, landlocked := .bool false, unMember := .bool true
    capital := .absent }

def c4Dataset : RawDataset :=
  ⟨.str (js ("canonical")), .str (js ("countries_base")), some [emptyEnEntity, goodEntity]⟩

def c4Source : SourceResult := ⟨none, some (some [c4Dataset])⟩

/-- A REST-countries record with a valid code but a blank English name. -/
def noEnCountry : RawCountry :=
  { cca2 := .str (js ("AB")), nameCommon := .str (js ("  "))
    translationJa := .absent, continent0 := .absent, subregion := .absent
    landlocked := .absent, unMember := .absent, capital0 := none }

/-- A candidate entity whose code fails the `^[A-Z]{2}$` pattern. -/
def badCodeEntity : RawEntity :=
  { id := .str (js ("X1")), label_ja := .str (js ("クスランド"))
    label_en := .str (js ("Xland")), continent := .absent, region := .absent
    landlocked := .bool false, unMember := .bool true, capital := .absent }

def c5Dataset : RawDataset :=
  ⟨.str (js ("canonical")), .str (js ("countries_base")), some [badCodeEntity]⟩

def c5Source : SourceResult := ⟨none, some (some [c5Dataset])⟩

/-- One canonical-artifact entity with a given localized name in the
`Asia` continent group, UN member, `landlocked` absent. -/
def mkTen (ja : String) : CleanEntity :=
  { id := js ("AA"), label_ja := js (ja), label_en := js ("X")
    continent := some (js ("Asia")), region := none, landlocked := none
    unMember := some true, capital := none }

/-- Ten entities with distinct one-character localized names, all in the
`Asia` group. -/
def tenAsia : List CleanEntity :=
  [mkTen ("あ"), mkTen ("い"), mkTen ("う"), mkTen ("え"), mkTen ("お"),
   mkTen ("か"), mkTen ("き"), mkTen ("く"), mkTen ("け"), mkTen ("こ")]

/-- The theme the derivation engine emits for `tenAsia`. -/
def asiaTheme : Theme :=
  { id := js ("countries_continent_asia"), title := js ("アジアの国連加盟国")
    categoryId := js ("geography"), categoryTitle := js ("地理")
    answers := [js ("あ"), js ("い"), js ("う"), js ("え"), js ("お"),
      js ("か"), js ("き"), js ("く"), js ("け"), js ("こ")] }

/-- The generic shape of one axis's group-names extraction: the names a
per-entity contribution function pushes under key `k`, in entity order. -/
def axisNames [DecidableEq κ] (c : CleanEntity → Option (κ × JStr))
    (es : List CleanEntity) (k : κ) : List JStr :=
  es.filterMap (fun e =>
    match c e with
    | some kv => if kv.1 = k then some kv.2 else none
    | none => none)

/-- The contribution of one entity to the subregion grouping map. -/
def contribSubregion (e : CleanEntity) : Option (JStr × JStr) :=
  if e.unMember = some true ∧ jsTrim e.label_ja ≠ [] then
    match e.region with
    | some k => if k ≠ [] then some (k, jsTrim e.label_ja) else none
    | none => none
  else none

/-- The contribution of one entity to the landlocked grouping map. -/
def contribLandlocked (e : CleanEntity) : Option (Bool × JStr) :=
  if e.unMember = some true ∧ jsTrim e.label_ja ≠ [] then
    match e.landlocked with
    | some b => some (b, jsTrim e.label_ja)
    | none => none
  else none

/-- The contribution of one entity to the initial-character grouping
map. -/
def contribInitialChar (e : CleanEntity) : Option (JStr × JStr) :=
  if e.unMember = some true ∧ jsTrim e.label_ja ≠ [] then
    if getInitial (jsTrim e.label_ja) ≠ [] then
      some (getInitial (jsTrim e.label_ja), jsTrim e.label_ja)
    else none
  else none

/-- The contribution of one entity to the kana-row grouping map (keyed by
the row token). -/
def contribRow (e : CleanEntity) : Option (JStr × JStr) :=
  if e.unMember = some true ∧ jsTrim e.label_ja ≠ [] then
    match (if getInitial (jsTrim e.label_ja) = [] then none
           else getRowMetaFromInitial (getInitial (jsTrim e.label_ja))) with
    | some row => some (row.token, jsTrim e.label_ja)
    | none => none
  else none

/-- The names the entity loop pushes into the subregion group of `k`. -/
def subregionNames (es : List CleanEntity) (k : JStr) : List JStr :=
  axisNames contribSubregion es k

/-- The names the entity loop pushes into the landlocked group of `b`. -/
def landlockedNames (es : List CleanEntity) (b : Bool) : List JStr :=
  axisNames contribLandlocked es b

/-- The names the entity loop pushes into the initial-character group of
`k`. -/
def initialCharNames (es : List CleanEntity) (k : JStr) : List JStr :=
  axisNames contribInitialChar es k

/-- The names the entity loop pushes into the kana-row group of the row
token `tok`. -/
def rowNames (es : List CleanEntity) (tok : JStr) : List JStr :=
  axisNames contribRow es tok

/-- The subregion-axis result for one grouping key, as a single function
of the entity list. -/
def subregionThemeFor (le : JStr → JStr → Bool) (entities : List CleanEntity)
    (k : JStr) : Option Theme :=
  match lookupGroup k (entities.foldl derivedStep ⟨[], [], [], [], []⟩).bySubregion with
  | none => none
  | some names => subregionThemeOf le k names

/-- The landlocked-axis result for one grouping key. -/
def landlockedThemeFor (le : JStr → JStr → Bool) (entities : List CleanEntity)
    (b : Bool) : Option Theme :=
  match lookupGroup b (entities.foldl derivedStep ⟨[], [], [], [], []⟩).byLandlocked with
  | none => none
  | some names => landlockedThemeOf le b names

/-- The initial-character-axis result for one grouping key. -/
def initialCharThemeFor (le : JStr → JStr → Bool) (entities : List CleanEntity)
    (k : JStr) : Option Theme :=
  match lookupGroup k (entities.foldl derivedStep ⟨[], [], [], [], []⟩).byInitialChar with
  | none => none
  | some names => initialCharThemeOf le k names

/-- The kana-row-axis result for one row of the `ROWS` table. -/
def initialRowThemeFor (le : JStr → JStr → Bool) (entities : List CleanEntity)
    (row : RowMeta) : Option Theme :=
  initialRowThemeOf le (entities.foldl derivedStep ⟨[], [], [], [], []⟩).byInitialRow row

theorem dropWhile_dropWhile (p : α → Bool) (l : List α) :
    (l.dropWhile p).dropWhile p = l.dropWhile p := by
  induction l with
  | nil => rfl
  | cons a t ih =>
      by_cases h : p a
      · simpa [List.dropWhile, h] using ih
      · simp [List.dropWhile, h]

theorem head_dropWhile_false {p : α → Bool} {l t : List α} {a : α}
    (h : l.dropWhile p = a :: t) : p a = false := by
  induction l with
  | nil => simp at h
  | cons b s ih =>
      by_cases hb : p b
      · exact ih (by simpa [List.dropWhile, hb] using h)
      · rw [List.dropWhile_cons_of_neg hb] at h
        cases h
        simpa using hb

theorem trimLeft_trimLeft (s : JStr) : trimLeft (trimLeft s) = trimLeft s :=
  dropWhile_dropWhile _ _

theorem trimRight_trimRight (s : JStr) : trimRight (trimRight s) = trimRight s := by
  simp [trimRight, List.reverse_reverse, dropWhile_dropWhile]

/-- The string `trimRight s` is a prefix of `s`. -/
theorem trimRight_prefix (s : JStr) : ∃ t, s = trimRight s ++ t := by
  refine ⟨(s.reverse.takeWhile isJsWs).reverse, ?_⟩
  have h := congrArg List.reverse (List.takeWhile_append_dropWhile isJsWs s.reverse)
  simp only [List.reverse_append, List.reverse_reverse] at h
  exact h.symm

theorem trimLeft_of_trimmed {s : JStr} (h : ∀ a t, s = a :: t → isJsWs a = false) :
    trimLeft s = s := by
  cases s with
  | nil => rfl
  | cons a t => simp [trimLeft, List.dropWhile_cons, h a t rfl]

/-- The key step for idempotence: `jsTrim s` has no leading whitespace. -/
theorem trimLeft_jsTrim (s : JStr) : trimLeft (jsTrim s) = jsTrim s := by
  apply trimLeft_of_trimmed
  intro a t hat
  obtain ⟨u, hu⟩ := trimRight_prefix (trimLeft s)
  have hheadTL : trimLeft s = a :: (t ++ u) := by
    rw [hu]
    simpa [jsTrim] using congrArg (· ++ u) hat
  exact head_dropWhile_false (l := s) hheadTL

theorem jsTrim_jsTrim (s : JStr) : jsTrim (jsTrim s) = jsTrim s := by
  show trimRight (trimLeft (jsTrim s)) = jsTrim s
  rw [trimLeft_jsTrim]
  show trimRight (trimRight (trimLeft s)) = jsTrim s
  rw [trimRight_trimRight]
  rfl

/-! ## Lemmas: `uniqPreserveOrder` and `sanitizeAnswers` -/
theorem mem_uniqGo {x : JStr} :
    ∀ {seen l : List JStr}, x ∈ uniqGo seen l ↔ x ∈ l ∧ x ∉ seen := by
  intro seen l
  induction l generalizing seen with
  | nil => simp [uniqGo]
  | cons a rest ih =>
      by_cases ha : a ∈ seen
      · rw [uniqGo, if_pos ha, ih]
        constructor
        · rintro ⟨hx, hs⟩
          exact ⟨.tail _ hx, hs⟩
        · rintro ⟨hx, hs⟩
          cases List.mem_cons.1 hx with
          | inl h => exact absurd (h ▸ ha) hs
          | inr h => exact ⟨h, hs⟩
      · rw [uniqGo, if_neg ha]
        constructor
        · intro hx
          cases List.mem_cons.1 hx with
          | inl h => exact ⟨h ▸ List.mem_cons_self a rest, h ▸ ha⟩
          | inr h =>
              obtain ⟨h1, h2⟩ := ih.1 h
              exact ⟨.tail _ h1, fun hs => h2 (.tail _ hs)⟩
        · rintro ⟨hx, hs⟩
          cases List.mem_cons.1 hx with
          | inl h => exact h ▸ List.mem_cons_self x _
          | inr h =>
              by_cases hxa : x = a
              · exact hxa ▸ List.mem_cons_self a _
              · exact .tail _ (ih.2 ⟨h, fun hm => by
                  cases List.mem_cons.1 hm with
                  | inl hh => exact hxa hh
                  | inr hh => exact hs hh⟩)

theorem uniqGo_nodup : ∀ (seen l : List JStr), (uniqGo seen l).Nodup := by
  intro seen l
  induction l generalizing seen with
  | nil => simp [uniqGo]
  | cons a rest ih =>
      by_cases ha : a ∈ seen
      · rw [uniqGo, if_pos ha]; exact ih seen
      · rw [uniqGo, if_neg ha]
        refine List.nodup_cons.2 ⟨fun hmem => ?_, ih (a :: seen)⟩
        exact (mem_uniqGo.1 hmem).2 (List.mem_cons_self a seen)

theorem uniqGo_of_nodup : ∀ {seen l : List JStr}, l.Nodup →
    (∀ x ∈ l, x ∉ seen) → uniqGo seen l = l := by
  intro seen l
  induction l generalizing seen with
  | nil => intro _ _; rfl
  | cons a rest ih =>
      intro hnd hdisj
      rw [uniqGo, if_neg (hdisj a (List.mem_cons_self a rest))]
      congr 1
      refine ih (List.nodup_cons.1 hnd).2 ?_
      intro x hx hmem
      cases List.mem_cons.1 hmem with
      | inl h => exact (List.nodup_cons.1 hnd).1 (h ▸ hx)
      | inr h => exact hdisj x (.tail _ hx) h

theorem mem_uniqPreserveOrder {x : JStr} {l : List JStr} :
    x ∈ uniqPreserveOrder l ↔ x ∈ l := by
  simp [uniqPreserveOrder, mem_uniqGo]

theorem uniqPreserveOrder_nodup (l : List JStr) : (uniqPreserveOrder l).Nodup :=
  uniqGo_nodup [] l

theorem uniqPreserveOrder_of_nodup {l : List JStr} (h : l.Nodup) :
    uniqPreserveOrder l = l :=
  uniqGo_of_nodup h (by simp)

/-- Every element of `sanitizeAnswers` is a trimmed, non-empty string. -/
theorem sanitizeAnswers_mem {a : JStr} {l : List JsAttr}
    (h : a ∈ sanitizeAnswers l) : jsTrim a = a ∧ a ≠ [] := by
  rw [sanitizeAnswers, mem_uniqPreserveOrder] at h
  obtain ⟨ha, hne⟩ := List.mem_filter.1 h
  obtain ⟨b, _, hb⟩ := List.mem_map.1 ha
  refine ⟨?_, by simpa using hne⟩
  rw [← hb, jsTrim_jsTrim]

theorem sanitizeAnswers_nodup (l : List JsAttr) : (sanitizeAnswers l).Nodup :=
  uniqPreserveOrder_nodup _

/-! ## Lemmas: the stable insertion sort -/
theorem insertLe_perm (le : α → α → Bool) (a : α) :
    ∀ l : List α, (insertLe le a l).Perm (a :: l) := by
  intro l
  induction l with
  | nil => rfl
  | cons b t ih =>
      rw [insertLe]
      by_cases h : le a b = true
      · rw [if_pos h]
      · rw [if_neg h]
        exact (List.Perm.cons b ih).trans (List.Perm.swap a b t)

theorem sortLe_perm (le : α → α → Bool) :
    ∀ l : List α, (sortLe le l).Perm l := by
  intro l
  induction l with
  | nil => rfl
  | cons a t ih =>
      rw [sortLe]
      exact (insertLe_perm le a (sortLe le t)).trans (.cons a ih)

theorem mem_sortLe {le : α → α → Bool} {a : α} {l : List α} :
    a ∈ sortLe le l ↔ a ∈ l :=
  (sortLe_perm le l).mem_iff

theorem sortLe_nodup {le : α → α → Bool} {l : List α} (h : l.Nodup) :
    (sortLe le l).Nodup :=
  (sortLe_perm le l).nodup_iff.2 h

theorem insertLe_pairwise {le : α → α → Bool}
    (htrans : ∀ a b c, le a b = true → le b c = true → le a c = true)
    (htotal : ∀ a b, (le a b || le b a) = true) (a : α) :
    ∀ {l : List α}, List.Pairwise (fun x y => le x y = true) l →
      List.Pairwise (fun x y => le x y = true) (insertLe le a l) := by
  intro l
  induction l with
  | nil => intro _; simp [insertLe]
  | cons b t ih =>
      intro hp
      rw [insertLe]
      by_cases h : le a b = true
      · rw [if_pos h]
        refine List.Pairwise.cons ?_ hp
        intro x hx
        rcases List.mem_cons.1 hx with hx | hx
        · exact hx ▸ h
        · exact htrans a b x h ((List.pairwise_cons.1 hp).1 x hx)
      · rw [if_neg h]
        have hba : le b a = true := by
          have := htotal a b
          rcases Bool.or_eq_true_iff.1 this with h1 | h1
          · exact absurd h1 h
          · exact h1
        refine List.Pairwise.cons ?_ (ih (List.pairwise_cons.1 hp).2)
        intro x hx
        rcases (insertLe_perm le a t).mem_iff.1 hx with hx2
        rcases List.mem_cons.1 hx2 with hx3 | hx3
        · exact hx3 ▸ hba
        · exact (List.pairwise_cons.1 hp).1 x hx3

theorem sortLe_sorted {le : α → α → Bool}
    (htrans : ∀ a b c, le a b = true → le b c = true → le a c = true)
    (htotal : ∀ a b, (le a b || le b a) = true) :
    ∀ l : List α, List.Pairwise (fun x y => le x y = true) (sortLe le l) := by
  intro l
  induction l with
  | nil => simp [sortLe]
  | cons a t ih =>
      rw [sortLe]
      exact insertLe_pairwise htrans htotal a ih

/-- C10: `sanitizeAnswers` is idempotent.  Feeding its own output (as an
array of strings) back in returns it unchanged: the output consists only
of already-trimmed, non-empty, pairwise-distinct strings in
first-occurrence order. -/
theorem sanitizeAnswers_idem (l : List JsAttr) :
    sanitizeAnswers ((sanitizeAnswers l).map JsAttr.str) = sanitizeAnswers l := by
  have hmap : ((sanitizeAnswers l).map JsAttr.str).filterMap asStr = sanitizeAnswers l := by
    rw [List.filterMap_map]
    have : asStr ∘ JsAttr.str = some := by
      funext s; rfl
    rw [this, List.filterMap_some]
  rw [sanitizeAnswers, hmap]
  have htrim : (sanitizeAnswers l).map jsTrim = sanitizeAnswers l := by
    rw [List.map_congr_left (fun a ha => (sanitizeAnswers_mem ha).1)]
    exact List.map_id _
  rw [htrim]
  have hfil : (sanitizeAnswers l).filter (· ≠ []) = sanitizeAnswers l :=
    List.filter_eq_self.2 (fun a ha => by simpa using (sanitizeAnswers_mem ha).2)
  rw [hfil]
  exact uniqPreserveOrder_of_nodup (sanitizeAnswers_nodup l)

/-! ## Lemmas: failure flag and write phase of `main` -/
/-- Once the failure flag is set the run result of `main` carries no
writes (both early-return checkpoints yield empty write lists). -/
theorem runMain_failed_no_writes (le : JStr → JStr → Bool) (srcs : List SourceResult)
    (h : (runMain le srcs).failed = true) :
    (runMain le srcs).themeWrites = [] ∧ (runMain le srcs).datasetWrites = [] := by
  by_cases h1 : (collect srcs).failed = true
  · simp [runMain, h1]
  · simp only [Bool.not_eq_true] at h1
    by_cases h2 : ((collect srcs).datasets.foldl validateDataset
        ((collect srcs).themes.foldl validateTheme GState.init)).failed = true
    · simp [runMain, h1, h2]
    · exfalso
      simp [runMain, h1, h2] at h

theorem GState.fail_themes (st : GState) : st.fail.themes = st.themes := rfl

/-- One theme-validation step only ever appends a theme whose answers
passed `sanitizeAnswers` and the non-empty gate. -/
theorem validateTheme_themes_ok {st : GState} {t : RawTheme}
    (h : ∀ u ∈ st.themes, themeOK u) :
    ∀ u ∈ (validateTheme st t).themes, themeOK u := by
  intro u hu
  simp only [validateTheme, validateTheme.validateThemeTail] at hu
  repeat' split at hu
  all_goals (try exact h u hu)
  all_goals rename_i hne
  all_goals
    (rcases List.mem_append.1 hu with hin | hnew
     · exact h u hin
     · simp only [List.mem_singleton] at hnew
       subst hnew
       refine ⟨by simpa using hne, sanitizeAnswers_nodup _, ?_⟩
       intro a ha
       exact sanitizeAnswers_mem ha)

/-- Dataset validation never touches `themesOut`. -/
theorem validateDataset_themes (st : GState) (d : RawDataset) :
    (validateDataset st d).themes = st.themes := by
  simp only [validateDataset]
  repeat' split
  all_goals rfl

/-- Invariant of the whole validation phase: every theme in the final
state is well formed. -/
theorem foldl_themes_ok (ts : List RawTheme) (ds : List RawDataset) :
    ∀ u ∈ (ds.foldl validateDataset (ts.foldl validateTheme GState.init)).themes,
      themeOK u := by
  have h1 : ∀ (st : GState), (∀ u ∈ st.themes, themeOK u) →
      ∀ u ∈ (ts.foldl validateTheme st).themes, themeOK u := by
    induction ts with
    | nil => intro st h; exact h
    | cons t rest ih =>
        intro st h
        exact ih _ (validateTheme_themes_ok h)
  have h2 : ∀ (st : GState), (∀ u ∈ st.themes, themeOK u) →
      ∀ u ∈ (ds.foldl validateDataset st).themes, themeOK u := by
    induction ds with
    | nil => intro st h; exact h
    | cons d rest ih =>
        intro st h
        refine ih _ ?_
        rw [validateDataset_themes]
        exact h
  intro u hu
  exact h2 _ (h1 GState.init (by simp [GState.init])) u hu

/-- Every theme artifact `main` writes is well formed. -/
theorem runMain_themes_ok (le : JStr → JStr → Bool) (srcs : List SourceResult) :
    ∀ t ∈ (runMain le srcs).themeWrites, themeOK t := by
  intro t ht
  by_cases h1 : (collect srcs).failed = true
  · simp [runMain, h1] at ht
  · by_cases h2 : ((collect srcs).datasets.foldl validateDataset
        ((collect srcs).themes.foldl validateTheme GState.init)).failed = true
    · simp [runMain, h1, h2] at ht
    · simp only [runMain, h1, h2, if_false, Bool.not_eq_true] at ht
      rw [if_neg (by simp [h1]), if_neg (by simp [h2])] at ht
      exact foldl_themes_ok _ _ t (mem_sortLe.1 ht)

/-! ## Lemmas: the `countries_base` entity loop and failure propagation -/
theorem cleanEntities_invariant :
    ∀ (es : List RawEntity) (seen : List JStr) (acc : List CleanEntity),
      (∀ c ∈ acc, iso2re c.id = true) →
      ((acc.map CleanEntity.id).Nodup ∧ ∀ c ∈ acc, c.id ∈ seen) →
      (∀ c ∈ (cleanEntities seen acc es).1, iso2re c.id = true) ∧
      ((cleanEntities seen acc es).1.map CleanEntity.id).Nodup := by
  intro es
  induction es with
  | nil => intro seen acc h1 h2; exact ⟨h1, h2.1⟩
  | cons e rest ih =>
      intro seen acc h1 h2
      rw [cleanEntities]
      by_cases hv : iso2re (rawIso2 e) = true
      · rw [if_neg (by simp [hv])]
        by_cases hs : rawIso2 e ∈ seen
        · rw [if_pos hs]
          exact ⟨h1, h2.1⟩
        · rw [if_neg hs]
          by_cases hl : trimOf e.label_en = []
          · rw [if_pos hl]
            exact ⟨h1, h2.1⟩
          · rw [if_neg hl]
            refine ih (rawIso2 e :: seen) (acc ++ [cleanEntity e]) ?_ ⟨?_, ?_⟩
            · intro c hc
              rcases List.mem_append.1 hc with hc | hc
              · exact h1 c hc
              · simp only [List.mem_singleton] at hc
                subst hc
                exact hv
            · rw [List.map_append]
              refine List.Nodup.append h2.1 (by simp) ?_
              intro x hx hy
              simp only [List.map_cons, List.map_nil, List.mem_singleton] at hy
              obtain ⟨c, hc, hcx⟩ := List.mem_map.1 hx
              exact hs (by
                have hthis := h2.2 c hc
                rw [hcx, hy] at hthis
                have hid : (cleanEntity e).id = rawIso2 e := rfl
                rwa [hid] at hthis)
            · intro c hc
              rcases List.mem_append.1 hc with hc | hc
              · exact List.mem_cons_of_mem _ (h2.2 c hc)
              · simp only [List.mem_singleton] at hc
                subst hc
                exact List.mem_cons_self _ _
      · rw [if_pos (by simp [hv])]
        exact ⟨h1, h2.1⟩

/-- Every entity accepted by the `countries_base` loop carries a valid
ISO2 code, and the accepted codes are pairwise distinct. -/
theorem cleanEntities_accepted (es : List RawEntity) :
    (∀ c ∈ (cleanEntities [] [] es).1, iso2re c.id = true) ∧
    ((cleanEntities [] [] es).1.map CleanEntity.id).Nodup :=
  cleanEntities_invariant es [] [] (by simp) ⟨by simp, by simp⟩

/-- If the loop ran to completion (no `fail`/`break`), then every
candidate code was valid, distinct from the codes before it, and outside
the initial `seen` set. -/
theorem cleanEntities_no_break :
    ∀ (es : List RawEntity) (seen : List JStr) (acc : List CleanEntity),
      (cleanEntities seen acc es).2 = false →
      (∀ e ∈ es, iso2re (rawIso2 e) = true) ∧ (es.map rawIso2).Nodup ∧
      (∀ e ∈ es, rawIso2 e ∉ seen) := by
  intro es
  induction es with
  | nil => intro seen acc _; exact ⟨by simp, by simp, by simp⟩
  | cons e rest ih =>
      intro seen acc hf
      rw [cleanEntities] at hf
      by_cases hv : iso2re (rawIso2 e) = true
      · rw [if_neg (by simp [hv])] at hf
        by_cases hs : rawIso2 e ∈ seen
        · rw [if_pos hs] at hf
          simp at hf
        · rw [if_neg hs] at hf
          by_cases hl : trimOf e.label_en = []
          · rw [if_pos hl] at hf
            simp at hf
          · rw [if_neg hl] at hf
            obtain ⟨ha, hb, hc⟩ := ih (rawIso2 e :: seen) (acc ++ [cleanEntity e]) hf
            refine ⟨?_, ?_, ?_⟩
            · intro x hx
              rcases List.mem_cons.1 hx with hx | hx
              · exact hx ▸ hv
              · exact ha x hx
            · rw [List.map_cons]
              refine List.nodup_cons.2 ⟨?_, hb⟩
              intro hmem
              obtain ⟨x, hx, hxe⟩ := List.mem_map.1 hmem
              exact hc x hx (hxe ▸ List.mem_cons_self _ _)
            · intro x hx
              rcases List.mem_cons.1 hx with hx | hx
              · exact hx ▸ hs
              · exact fun hm => hc x hx (List.mem_cons_of_mem _ hm)
      · rw [if_pos (by simp [hv])] at hf
        simp at hf

theorem validateTheme_mono {st : GState} {t : RawTheme} (h : st.failed = true) :
    (validateTheme st t).failed = true := by
  simp only [validateTheme, validateTheme.validateThemeTail]
  repeat' split
  all_goals simp [GState.fail, h]

theorem validateDataset_mono {st : GState} {d : RawDataset} (h : st.failed = true) :
    (validateDataset st d).failed = true := by
  simp only [validateDataset]
  repeat' split
  all_goals simp_all [GState.fail]

theorem foldl_validateDataset_mono (ds : List RawDataset) {st : GState}
    (h : st.failed = true) : (ds.foldl validateDataset st).failed = true := by
  induction ds generalizing st with
  | nil => exact h
  | cons d rest ih => exact ih (validateDataset_mono h)

theorem foldl_validateTheme_mono (ts : List RawTheme) {st : GState}
    (h : st.failed = true) : (ts.foldl validateTheme st).failed = true := by
  induction ts generalizing st with
  | nil => exact h
  | cons t rest ih => exact ih (validateTheme_mono h)

/-- A `countries_base` candidate whose entity list contains an invalid or
repeated code always leaves the validation loop with the failure flag
set. -/
theorem validateDataset_bad_entities {st : GState} {d : RawDataset} {es : List RawEntity}
    (hes : d.entities = some es)
    (hbad : ¬ ((∀ e ∈ es, iso2re (rawIso2 e) = true) ∧ (es.map rawIso2).Nodup)) :
    (validateDataset st d).failed = true := by
  simp only [validateDataset]
  rw [hes]
  repeat' split
  all_goals (try simp [GState.fail])
  · assumption
  · exfalso
    rename_i heq hclean hst
    injection heq with heq
    subst heq
    obtain ⟨ha, hb, _⟩ := cleanEntities_no_break _ [] [] (by simpa using hclean)
    exact hbad ⟨ha, hb⟩

/-- Folding dataset validation over a list containing a candidate that
always fails leaves the failure flag set. -/
theorem foldl_validateDataset_failed {ds : List RawDataset} {d : RawDataset}
    (hd : d ∈ ds) (hstep : ∀ st' : GState, (validateDataset st' d).failed = true)
    (st : GState) : (ds.foldl validateDataset st).failed = true := by
  induction ds generalizing st with
  | nil => cases hd
  | cons a rest ih =>
      rcases List.mem_cons.1 hd with hda | hdr
      · subst hda
        exact foldl_validateDataset_mono rest (hstep st)
      · exact ih hdr _

/-- A collected `countries_base` candidate containing an invalid or
repeated entity code forces the whole run to fail and write nothing. -/
theorem runMain_failed_of_bad_dataset (le : JStr → JStr → Bool) {srcs : List SourceResult}
    {d : RawDataset} {es : List RawEntity}
    (hd : d ∈ (collect srcs).datasets) (hes : d.entities = some es)
    (hbad : ¬ ((∀ e ∈ es, iso2re (rawIso2 e) = true) ∧ (es.map rawIso2).Nodup)) :
    (runMain le srcs).failed = true := by
  by_cases h1 : (collect srcs).failed = true
  · simp [runMain, h1]
  · have h2 : ((collect srcs).datasets.foldl validateDataset
        ((collect srcs).themes.foldl validateTheme GState.init)).failed = true :=
      foldl_validateDataset_failed hd
        (fun st' => validateDataset_bad_entities hes hbad) _
    simp [runMain, h1, h2]

/-! ## Lemmas: the code-unit lexicographic comparator -/
theorem lexLe_total : ∀ a b : JStr, (lexLe a b || lexLe b a) = true := by
  intro a
  induction a with
  | nil => intro b; simp [lexLe]
  | cons x s ih =>
      intro b
      cases b with
      | nil => simp [lexLe]
      | cons y t =>
          by_cases hxy : x = y
          · subst hxy
            simpa [lexLe] using ih t
          · simp only [lexLe, if_neg hxy, if_neg (Ne.symm hxy)]
            rcases Nat.lt_or_ge x y with h | h
            · simp [h]
            · have : y < x := lt_of_le_of_ne h (Ne.symm hxy)
              simp [this, Nat.not_lt.2 h]

theorem lexLe_trans : ∀ a b c : JStr,
    lexLe a b = true → lexLe b c = true → lexLe a c = true := by
  intro a
  induction a with
  | nil => intro b c _ _; simp [lexLe]
  | cons x s ih =>
      intro b c hab hbc
      cases b with
      | nil => simp [lexLe] at hab
      | cons y t =>
          cases c with
          | nil => simp [lexLe] at hbc
          | cons z u =>
              by_cases hxy : x = y <;> by_cases hyz : y = z
              · subst hxy; subst hyz
                simp only [lexLe, if_pos rfl] at hab hbc ⊢
                exact ih t u hab hbc
              · subst hxy
                simp only [lexLe, if_pos rfl, if_neg hyz] at hbc ⊢
                exact hbc
              · subst hyz
                simp only [lexLe, if_neg hxy, if_pos rfl] at hab ⊢
                exact hab
              · simp only [lexLe, if_neg hxy, if_neg hyz] at hab hbc
                have hxz : x < z := Nat.lt_trans (by simpa using hab) (by simpa using hbc)
                have hne : x ≠ z := Nat.ne_of_lt hxz
                simp [lexLe, if_neg hne, hxz]

/-! ## Lemmas: `uniqSortedJa` and the derivation axes -/
theorem uniqSortedJa_mem {le : JStr → JStr → Bool} {ns : List JStr} {a : JStr}
    (h : ∀ x ∈ ns, jsTrim x = x ∧ x ≠ []) :
    a ∈ uniqSortedJa le ns ↔ a ∈ ns := by
  have hmap : ns.map jsTrim = ns := by
    rw [List.map_congr_left (fun x hx => (h x hx).1)]
    exact List.map_id _
  have hfil : ns.filter (· ≠ []) = ns :=
    List.filter_eq_self.2 (fun x hx => by simpa using (h x hx).2)
  rw [uniqSortedJa, hmap, hfil, mem_sortLe, mem_uniqPreserveOrder]

theorem uniqSortedJa_nodup (le : JStr → JStr → Bool) (ns : List JStr) :
    (uniqSortedJa le ns).Nodup := by
  rw [uniqSortedJa]
  exact sortLe_nodup (uniqPreserveOrder_nodup _)

theorem uniqSortedJa_sorted (le : JStr → JStr → Bool)
    (htrans : ∀ a b c, le a b = true → le b c = true → le a c = true)
    (htotal : ∀ a b, (le a b || le b a) = true) (ns : List JStr) :
    List.Pairwise (fun a b => le a b = true) (uniqSortedJa le ns) :=
  sortLe_sorted htrans htotal _

theorem continentThemeOf_len {le : JStr → JStr → Bool} {k : JStr} {ns : List JStr}
    {t : Theme} (h : continentThemeOf le k ns = some t) : 10 ≤ t.answers.length := by
  simp only [continentThemeOf] at h
  split at h
  · cases h
  · rename_i hlen
    cases h
    simpa using Nat.le_of_not_lt hlen

theorem subregionThemeOf_len {le : JStr → JStr → Bool} {k : JStr} {ns : List JStr}
    {t : Theme} (h : subregionThemeOf le k ns = some t) : 10 ≤ t.answers.length := by
  simp only [subregionThemeOf] at h
  split at h
  · cases h
  · rename_i hlen
    cases h
    simpa using Nat.le_of_not_lt hlen

theorem landlockedThemeOf_len {le : JStr → JStr → Bool} {b : Bool} {ns : List JStr}
    {t : Theme} (h : landlockedThemeOf le b ns = some t) : 10 ≤ t.answers.length := by
  simp only [landlockedThemeOf] at h
  split at h
  · cases h
  · rename_i hlen
    cases h
    simpa using Nat.le_of_not_lt hlen

theorem initialCharThemeOf_len {le : JStr → JStr → Bool} {k : JStr} {ns : List JStr}
    {t : Theme} (h : initialCharThemeOf le k ns = some t) : 10 ≤ t.answers.length := by
  simp only [initialCharThemeOf] at h
  split at h
  · cases h
  · rename_i hlen
    split at h
    · cases h
    · cases h
      simpa using Nat.le_of_not_lt hlen

theorem initialRowThemeOf_len {le : JStr → JStr → Bool} {m : List (JStr × List JStr)}
    {row : RowMeta} {t : Theme} (h : initialRowThemeOf le m row = some t) :
    10 ≤ t.answers.length := by
  simp only [initialRowThemeOf] at h
  split at h
  · cases h
  · split at h
    · cases h
    · rename_i hlen
      cases h
      simpa using Nat.le_of_not_lt hlen

/-- Every theme synthesized by the derivation engine carries at least 10
answers. -/
theorem derivedThemes_min10 (le : JStr → JStr → Bool) (es : List CleanEntity) :
    ∀ t ∈ derivedThemes le es, 10 ≤ t.answers.length := by
  intro t ht
  rw [derivedThemes] at ht
  rw [mem_sortLe] at ht
  simp only [List.mem_append] at ht
  rcases ht with ((((h | h) | h) | h) | h) <;>
    obtain ⟨kv, _, hkv⟩ := List.mem_filterMap.1 h
  · exact continentThemeOf_len hkv
  · exact subregionThemeOf_len hkv
  · exact landlockedThemeOf_len hkv
  · exact initialCharThemeOf_len hkv
  · exact initialRowThemeOf_len hkv

theorem derivedStep_byContinent (g : DerivedGroups) (e : CleanEntity) :
    (derivedStep g e).byContinent =
      match contribOf e with
      | some (k, v) => pushGroup g.byContinent k v
      | none => g.byContinent := by
  simp only [derivedStep, contribOf]
  repeat' split
  all_goals simp_all

theorem lookupGroup_pushGroup [DecidableEq κ] (m : List (κ × List JStr)) (k k' : κ)
    (v : JStr) :
    lookupGroup k (pushGroup m k' v) =
      if k' = k then some ((lookupGroup k m).getD [] ++ [v]) else lookupGroup k m := by
  induction m with
  | nil =>
      by_cases h : k' = k
      · simp [pushGroup, lookupGroup, h]
      · simp [pushGroup, lookupGroup, h]
  | cons p rest ih =>
      obtain ⟨k0, vs⟩ := p
      by_cases h0 : k0 = k'
      · subst h0
        by_cases h : k0 = k
        · subst h
          simp [pushGroup, lookupGroup]
        · simp [pushGroup, lookupGroup, h]
      · by_cases h : k0 = k
        · subst h
          rw [pushGroup, if_neg h0]
          have hne : k' ≠ k0 := fun he => h0 he.symm
          simp [lookupGroup, hne]
        · rw [pushGroup, if_neg h0]
          simp only [lookupGroup, if_neg h]
          exact ih

/-- The continent grouping map built by the fold, looked up at `k`,
holds exactly the initial contents followed by the per-entity
contributions. -/
theorem lookup_fold_byContinent (es : List CleanEntity) (g : DerivedGroups) (k : JStr) :
    lookupGroup k (es.foldl derivedStep g).byContinent =
      match lookupGroup k g.byContinent with
      | some vs => some (vs ++ continentNames es k)
      | none => if continentNames es k = [] then none
                else some (continentNames es k) := by
  induction es generalizing g with
  | nil =>
      simp only [List.foldl_nil, continentNames, List.filterMap_nil]
      cases lookupGroup k g.byContinent <;> simp
  | cons e rest ih =>
      rw [List.foldl_cons, ih]
      have hnames : continentNames (e :: rest) k =
          (match contribOf e with
           | some (k', v) => if k' = k then some v else none
           | none => none).toList ++ continentNames rest k := by
        simp [continentNames, List.filterMap_cons]
        split <;> simp_all
      have hstep := derivedStep_byContinent g e
      cases hc : contribOf e with
      | none =>
          rw [hc] at hstep hnames
          rw [hstep]
          simp only [Option.toList_none, List.nil_append] at hnames
          rw [hnames]
      | some kv =>
          obtain ⟨k', v⟩ := kv
          rw [hc] at hstep hnames
          dsimp only at hstep hnames
          rw [hstep, lookupGroup_pushGroup]
          by_cases hk : k' = k
          · subst hk
            rw [if_pos rfl]
            simp only [if_pos rfl, Option.toList_some] at hnames
            rw [hnames]
            cases hgl : lookupGroup k' g.byContinent with
            | none => simp
            | some vs => simp
          · rw [if_neg hk]
            simp only [if_neg hk, Option.toList_none, List.nil_append] at hnames
            rw [hnames]

theorem continentNames_mem {es : List CleanEntity} {k x : JStr}
    (hx : x ∈ continentNames es k) : jsTrim x = x ∧ x ≠ [] := by
  obtain ⟨e, _, he⟩ := List.mem_filterMap.1 hx
  cases hco : contribOf e with
  | none => rw [hco] at he; cases he
  | some kv =>
      obtain ⟨k', v⟩ := kv
      rw [hco] at he
      dsimp only at he
      by_cases hk : k' = k
      · rw [if_pos hk] at he
        injection he with he
        subst he
        have hv : v = jsTrim e.label_ja ∧ jsTrim e.label_ja ≠ [] := by
          rw [contribOf] at hco
          by_cases hcond : e.unMember = some true ∧ jsTrim e.label_ja ≠ []
          · rw [if_pos hcond] at hco
            cases hc : e.continent with
            | none => rw [hc] at hco; cases hco
            | some kk =>
                rw [hc] at hco
                dsimp only at hco
                by_cases hkk : kk ≠ []
                · rw [if_pos hkk] at hco
                  simp only [Option.some.injEq, Prod.mk.injEq] at hco
                  exact ⟨hco.2.symm, hcond.2⟩
                · rw [if_neg hkk] at hco; cases hco
          · rw [if_neg hcond] at hco; cases hco
        obtain ⟨hv1, hv2⟩ := hv
        rw [hv1]
        exact ⟨jsTrim_jsTrim _, hv2⟩
      · rw [if_neg hk] at he; cases he

theorem continentThemeFor_answers (le : JStr → JStr → Bool) (es : List CleanEntity)
    (k : JStr) :
    (continentThemeFor le es k).map Theme.answers =
      if 10 ≤ (uniqSortedJa le (continentNames es k)).length ∧ continentNames es k ≠ []
      then some (uniqSortedJa le (continentNames es k)) else none := by
  rw [continentThemeFor, lookup_fold_byContinent]
  have hempty : lookupGroup k (⟨[], [], [], [], []⟩ : DerivedGroups).byContinent = none := rfl
  rw [hempty]
  by_cases hn : continentNames es k = []
  · rw [if_pos hn]
    simp [hn]
  · rw [if_neg hn]
    simp only [continentThemeOf]
    by_cases hlen : (uniqSortedJa le (continentNames es k)).length < 10
    · rw [if_pos hlen, if_neg (fun hcon => absurd hcon.1 (Nat.not_le.2 hlen))]
      rfl
    · rw [if_neg hlen, if_pos ⟨Nat.le_of_not_lt hlen, hn⟩]
      rfl

theorem digVal_hexDig : ∀ m, m < 16 → digVal (hexDig m) = m := by decide

theorem hexRep_ne_nil (n : Nat) : hexRep n ≠ [] := by
  unfold hexRep
  split
  · simp
  · simp

theorem hexVal_hexRep (n : Nat) : hexVal (hexRep n) = n := by
  induction n using Nat.strong_induction_on with
  | _ n ih =>
      unfold hexRep
      split
      · rename_i h
        simp [hexVal, digVal_hexDig n h]
      · rename_i h
        rw [hexVal, List.foldl_append]
        have ih1 := ih (n / 16) (Nat.div_lt_self (by omega) (by omega))
        rw [show List.foldl (fun acc d => acc * 16 + digVal d) 0 (hexRep (n / 16)) =
          hexVal (hexRep (n / 16)) from rfl, ih1]
        simp only [List.foldl_cons, List.foldl_nil,
          digVal_hexDig (n % 16) (Nat.mod_lt _ (by omega))]
        have := Nat.div_add_mod n 16
        omega

theorem hexVal_hexPad (n : Nat) : hexVal (hexPad n) = n := by
  rw [hexPad]
  split
  · exact hexVal_hexRep n
  · rw [hexVal, List.foldl_append]
    have hz : ∀ k, List.foldl (fun acc d => acc * 16 + digVal d) 0
        (List.replicate k 0x30) = 0 := by
      intro k
      induction k with
      | zero => rfl
      | succ m ihm => simpa [List.replicate_succ, digVal] using ihm
    rw [hz]
    exact hexVal_hexRep n

theorem hexPad_inj {a b : Nat} (h : hexPad a = hexPad b) : a = b := by
  have ha := hexVal_hexPad a
  rw [h, hexVal_hexPad b] at ha
  omega

theorem hexPad_ne_nil (n : Nat) : hexPad n ≠ [] := by
  rw [hexPad]
  split
  · exact hexRep_ne_nil n
  · simp [hexRep_ne_nil n]

theorem isJsWs_surrogate {u : Nat} (h1 : 0xD800 ≤ u) (h2 : u ≤ 0xDFFF) :
    isJsWs u = false := by
  simp only [isJsWs]
  simp only [Bool.or_eq_false_iff, beq_eq_false_iff_ne, ne_eq,
    Bool.and_eq_false_iff, decide_eq_false_iff_not, Nat.not_le]
  omega

theorem jsTrim_single {u : Nat} (h : isJsWs u = false) : jsTrim [u] = [u] := by
  simp [jsTrim, trimLeft, trimRight, List.dropWhile, h]

theorem jsTrim_pair {u v : Nat} (hu : isJsWs u = false) (hv : isJsWs v = false) :
    jsTrim [u, v] = [u, v] := by
  simp [jsTrim, trimLeft, trimRight, List.dropWhile, hu, hv]

/-- Evaluating `initialToIdToken` on the encoded single code point: the lowercased
ASCII alphanumeric, or `u` plus the padded hexadecimal code point. -/
theorem initialToIdToken_encode (cp : Nat) (hws : isJsWs cp = false)
    (hmax : cp ≤ 0x10FFFF) :
    initialToIdToken (encodeCp cp) =
      if isAsciiAlnum cp then [lowerCp cp] else 0x75 :: hexPad cp := by
  by_cases hb : cp ≤ 0xFFFF
  · rw [encodeCp, if_pos hb, initialToIdToken.eq_def, jsTrim_single hws]
    dsimp only
    have hcp : cpAt cp [] = cp := by
      rw [cpAt]
      split
      · rfl
      · rfl
    rw [hcp]
  · have hx : ¬ cp ≤ 0xFFFF := hb
    rw [encodeCp, if_neg hx]
    have hqle : (cp - 0x10000) / 0x400 ≤ 0x3FF := by
      have h1 : cp - 0x10000 ≤ 0xFFFFF := by omega
      calc (cp - 0x10000) / 0x400 ≤ 0xFFFFF / 0x400 := Nat.div_le_div_right h1
        _ = 0x3FF := by norm_num
    have hhi1 : 0xD800 ≤ 0xD800 + (cp - 0x10000) / 0x400 := by omega
    have hhi2 : 0xD800 + (cp - 0x10000) / 0x400 ≤ 0xDBFF := by omega
    have hlo1 : 0xDC00 ≤ 0xDC00 + (cp - 0x10000) % 0x400 := by omega
    have hlo2 : 0xDC00 + (cp - 0x10000) % 0x400 ≤ 0xDFFF := by
      have := Nat.mod_lt (cp - 0x10000) (y := 0x400) (by omega)
      omega
    rw [initialToIdToken.eq_def,
      jsTrim_pair (isJsWs_surrogate hhi1 (by omega)) (isJsWs_surrogate (by omega) hlo2)]
    dsimp only
    have hcp : cpAt (0xD800 + (cp - 0x10000) / 0x400) [0xDC00 + (cp - 0x10000) % 0x400] = cp := by
      rw [cpAt, if_pos ⟨hhi1, hhi2⟩, if_pos ⟨hlo1, hlo2⟩]
      have := Nat.div_add_mod (cp - 0x10000) 0x400
      omega
    rw [hcp]

/-- The scanning loop of `getInitial` returns the first decoded code
point outside the skip set (re-encoded), dropping the leading skip-set
code points. -/
theorem getInitialLoop_eq : ∀ (n : Nat) (s : JStr), s.length ≤ n →
    getInitialLoop s =
      (match ((cpDecode s).dropWhile isSkipCp).head? with
       | some cp => encodeCp cp
       | none => []) := by
  intro n
  induction n with
  | zero =>
      intro s h
      have hs : s = [] := List.eq_nil_of_length_eq_zero (Nat.le_zero.1 h)
      subst hs
      rfl
  | succ m ih =>
      intro s h
      cases s with
      | nil => rfl
      | cons u rest =>
          rw [getInitialLoop.eq_def, cpDecode.eq_def]
          dsimp only
          by_cases hskip : isSkipCp (cpAt u rest) = true
          · rw [if_pos hskip]
            by_cases hbig : cpAt u rest > 0xFFFF
            · rw [if_pos hbig, if_pos hbig, List.dropWhile_cons_of_pos hskip]
              cases rest with
              | nil => rfl
              | cons v t =>
                  exact ih t (by
                    simp only [List.length_cons] at h
                    omega)
            · rw [if_neg hbig, if_neg hbig, List.dropWhile_cons_of_pos hskip]
              exact ih rest (by
                simp only [List.length_cons] at h
                omega)
          · rw [if_neg hskip]
            by_cases hbig : cpAt u rest > 0xFFFF
            · rw [if_pos hbig, List.dropWhile_cons_of_neg (by simpa using hskip)]
              rfl
            · rw [if_neg hbig, List.dropWhile_cons_of_neg (by simpa using hskip)]
              rfl

/-- Entities accepted into the `countries_base` loop always carry a
non-absent `landlocked`. -/
theorem cleanEntities_landlocked :
    ∀ (es : List RawEntity) (seen : List JStr) (acc : List CleanEntity),
      (∀ c ∈ acc, c.landlocked.isSome = true) →
      ∀ c ∈ (cleanEntities seen acc es).1, c.landlocked.isSome = true := by
  intro es
  induction es with
  | nil => intro seen acc h; exact h
  | cons e rest ih =>
      intro seen acc h
      rw [cleanEntities]
      by_cases hv : iso2re (rawIso2 e) = true
      · rw [if_neg (by simp [hv])]
        by_cases hs : rawIso2 e ∈ seen
        · rw [if_pos hs]; exact h
        · rw [if_neg hs]
          by_cases hl : trimOf e.label_en = []
          · rw [if_pos hl]; exact h
          · rw [if_neg hl]
            refine ih _ _ ?_
            intro c hc
            rcases List.mem_append.1 hc with hc | hc
            · exact h c hc
            · simp only [List.mem_singleton] at hc
              subst hc
              rfl
      · rw [if_pos (by simp [hv])]
        exact h

/-! ## Claim theorems -/
/-- C1: if the run-level failure flag is set by the end of the collect
phase or by the end of the validate phase, `main` returns before the
write phase: the run writes no theme artifact and no canonical artifact,
leaving every existing output file unchanged. -/
theorem c1_failure_flag_blocks_writes (le : JStr → JStr → Bool)
    (srcs : List SourceResult)
    (h : (collect srcs).failed = true ∨
      ((collect srcs).datasets.foldl validateDataset
        ((collect srcs).themes.foldl validateTheme GState.init)).failed = true) :
    (runMain le srcs).themeWrites = [] ∧ (runMain le srcs).datasetWrites = [] := by
  rcases h with h | h
  · simp [runMain, h]
  · by_cases h1 : (collect srcs).failed = true
    · simp [runMain, h1]
    · simp [runMain, h1, h]

theorem c1_witness :
    (collect [({ themes := none, datasets := none } : SourceResult)]).failed = true ∧
    (runMain lexLe [({ themes := none, datasets := none } : SourceResult)]).themeWrites = [] ∧
    (runMain lexLe [({ themes := none, datasets := none } : SourceResult)]).datasetWrites = [] :=
  ⟨by decide,
   c1_failure_flag_blocks_writes lexLe [{ themes := none, datasets := none }]
     (Or.inl (by decide))⟩

/-- C2 counterexample: the pipeline run over the demo source emits the
theme `demo_fruits` with only 4 answers (and `demo_colors` with 6), both
written without any failure — refuting the claim that every emitted theme
has at least 10 answers. -/
theorem c2_counterexample :
    (runMain lexLe [demoSource]).failed = false ∧
    ((runMain lexLe [demoSource]).themeWrites.all
      (fun t => decide (10 ≤ t.answers.length))) = false ∧
    (runMain lexLe [demoSource]).themeWrites.map (fun t => (t.id, t.answers.length)) =
      [(js ("demo_colors"), 6), (js ("demo_fruits"), 4)] := by decide

/-- C2 (amended): every theme artifact the pipeline emits has a
non-empty answers list containing no blank strings and no duplicates
after trimming; the at-least-10 bound holds for the themes synthesized by
the derivation engine (adapter-provided themes only need a non-empty
cleaned answers list). -/
theorem c2_amended (le le2 : JStr → JStr → Bool) (srcs : List SourceResult)
    (es : List CleanEntity) :
    (∀ t ∈ (runMain le srcs).themeWrites,
      t.answers ≠ [] ∧ t.answers.Nodup ∧ ∀ a ∈ t.answers, jsTrim a = a ∧ a ≠ []) ∧
    (∀ t ∈ derivedThemes le2 es, 10 ≤ t.answers.length) :=
  ⟨fun t ht => runMain_themes_ok le srcs t ht, derivedThemes_min10 le2 es⟩

theorem c2_witness :
    (demoColorsOut.answers ≠ [] ∧ demoColorsOut.answers.Nodup ∧
      ∀ a ∈ demoColorsOut.answers, jsTrim a = a ∧ a ≠ []) ∧
    10 ≤ asiaTheme.answers.length :=
  ⟨(c2_amended lexLe lexLe [demoSource] tenAsia).1 demoColorsOut (by decide),
   (c2_amended lexLe lexLe [demoSource] tenAsia).2 asiaTheme (by decide)⟩

/-- C3 counterexample: a candidate entity with an absent `landlocked`
attribute is stored in the written `countries_base` artifact with
`landlocked = false` — not with the explicit absent marker (`null`) the
claim requires — and the run succeeds. -/
theorem c3_counterexample :
    (runMain lexLe [c3Source]).failed = false ∧
    ((runMain lexLe [c3Source]).datasetWrites.map
      (fun d => d.entities.map CleanEntity.landlocked)) = [[some false]] := by decide

/-- C3 (amended): the stored `landlocked` attribute is the `Boolean()`
coercion of the candidate value — `false` when absent — and is never the
absent marker; the explicit absent marker is applied to `unMember` (and
`capital`) instead, exactly when the candidate value is not of the
expected type. -/
theorem c3_amended (e : RawEntity) (es : List RawEntity) :
    (cleanEntity e).landlocked = some (jsTruthy e.landlocked) ∧
    (cleanEntity e).unMember = asBool e.unMember ∧
    (∀ c ∈ (cleanEntities [] [] es).1, c.landlocked.isSome = true) :=
  ⟨rfl, rfl, cleanEntities_landlocked es [] [] (by simp)⟩

theorem c3_witness :
    (cleanEntity noLandlockedEntity).landlocked =
      some (jsTruthy noLandlockedEntity.landlocked) ∧
    (cleanEntity noLandlockedEntity).landlocked.isSome = true :=
  ⟨(c3_amended noLandlockedEntity [noLandlockedEntity]).1,
   (c3_amended noLandlockedEntity [noLandlockedEntity]).2.2
     (cleanEntity noLandlockedEntity) (by decide)⟩

/-- C4 counterexample: at the canonical-dictionary ingestion stage, a
candidate entity with a blank English name is fatal, not a non-fatal
skip: the entity loop aborts (the following valid entity is dropped), the
run-level failure flag is set, and nothing is written. -/
theorem c4_counterexample :
    cleanEntities [] [] [emptyEnEntity, goodEntity] = ([], true) ∧
    (runMain lexLe [c4Source]).failed = true ∧
    (runMain lexLe [c4Source]).themeWrites = [] ∧
    (runMain lexLe [c4Source]).datasetWrites = [] := by decide

/-- C4 (amended): the skip-as-non-fatal behavior lives in the
REST-countries source adapter, where a candidate with a blank English
name is skipped and the remaining records still processed; at the
ingestion/validation stage of `main`, a candidate entity with a blank
fallback name is fatal — the failure flag is set, the batch's entity
loop aborts, and a failed run writes nothing. -/
theorem c4_amended :
    (∀ (acc : List (JStr × CleanEntity)) (c : RawCountry) (rest : List RawCountry),
      trimOf c.cca2 ≠ [] → iso2re (trimOf c.cca2) = true →
      ((acc.map Prod.fst).contains (trimOf c.cca2)) = false →
      trimOf c.nameCommon = [] →
      restLoop acc (c :: rest) = restLoop acc rest) ∧
    (∀ (seen : List JStr) (acc : List CleanEntity) (e : RawEntity)
      (rest : List RawEntity),
      iso2re (rawIso2 e) = true → rawIso2 e ∉ seen → trimOf e.label_en = [] →
      cleanEntities seen acc (e :: rest) = (acc, true)) ∧
    (∀ (le : JStr → JStr → Bool) (srcs : List SourceResult),
      (runMain le srcs).failed = true →
      (runMain le srcs).themeWrites = [] ∧ (runMain le srcs).datasetWrites = []) := by
  refine ⟨?_, ?_, runMain_failed_no_writes⟩
  · intro acc c rest h1 h2 h3 h4
    simp only [restLoop]
    rw [if_neg h1, if_neg (by simp [h2]), if_neg (by rw [h3]; simp), if_pos h4]
  · intro seen acc e rest h1 h2 h3
    rw [cleanEntities, if_neg (by simp [h1]), if_neg h2, if_pos h3]

theorem c4_witness :
    restLoop [] [noEnCountry] = restLoop [] [] ∧
    cleanEntities [] [] [emptyEnEntity] = ([], true) ∧
    (runMain lexLe [c4Source]).themeWrites = [] :=
  ⟨c4_amended.1 [] noEnCountry [] (by decide) (by decide) (by decide) (by decide),
   c4_amended.2.1 [] [] emptyEnEntity [] (by decide) (by decide) (by decide),
   (c4_amended.2.2 lexLe [c4Source] (by decide)).1⟩

/-- C5: every entity code accepted into the canonical dictionary matches
`^[A-Z]{2}$` and occurs exactly once; and if a collected `countries_base`
candidate contains an entity with an invalid or repeated code, the
run-level failure flag is set and the run fails without writing. -/
theorem c5_codes_unique_or_fatal (le : JStr → JStr → Bool)
    (srcs : List SourceResult) (d : RawDataset) (es : List RawEntity) :
    (∀ c ∈ (cleanEntities [] [] es).1, iso2re c.id = true) ∧
    ((cleanEntities [] [] es).1.map CleanEntity.id).Nodup ∧
    (d ∈ (collect srcs).datasets → d.entities = some es →
      ¬ ((∀ e ∈ es, iso2re (rawIso2 e) = true) ∧ (es.map rawIso2).Nodup) →
      (runMain le srcs).failed = true ∧
      (runMain le srcs).themeWrites = [] ∧ (runMain le srcs).datasetWrites = []) := by
  refine ⟨(cleanEntities_accepted es).1, (cleanEntities_accepted es).2, ?_⟩
  intro hd hes hbad
  have hf := runMain_failed_of_bad_dataset le hd hes hbad
  exact ⟨hf, (runMain_failed_no_writes le srcs hf).1,
    (runMain_failed_no_writes le srcs hf).2⟩

theorem c5_witness :
    (runMain lexLe [c5Source]).failed = true ∧
    (runMain lexLe [c5Source]).themeWrites = [] ∧
    (runMain lexLe [c5Source]).datasetWrites = [] :=
  (c5_codes_unique_or_fatal lexLe [c5Source] c5Dataset [badCodeEntity]).2.2
    (by decide) (by decide) (by decide)

/-- C6 counterexample: `initialToIdToken` is not collision-free on
distinct initial characters — the distinct initials `A` and `a` yield the
same token `a`. -/
theorem c6_counterexample :
    initialToIdToken (js ("A")) = js ("a") ∧
    initialToIdToken (js ("a")) = js ("a") ∧
    js ("A") ≠ js ("a") := by decide

/-- C6 (amended): each token is either the lowercase ASCII alphanumeric
character itself or `u` followed by the hexadecimal code point padded to
at least four digits; two distinct non-empty initial characters yield
distinct tokens unless both are ASCII alphanumerics identified by
lowercasing (such as `A` and `a`). -/
theorem c6_amended (cp1 cp2 : Nat)
    (h1w : isJsWs cp1 = false) (h1m : cp1 ≤ 0x10FFFF)
    (h2w : isJsWs cp2 = false) (h2m : cp2 ≤ 0x10FFFF) :
    (initialToIdToken (encodeCp cp1) =
      if isAsciiAlnum cp1 then [lowerCp cp1] else 0x75 :: hexPad cp1) ∧
    (initialToIdToken (encodeCp cp1) = initialToIdToken (encodeCp cp2) →
      cp1 = cp2 ∨ (isAsciiAlnum cp1 = true ∧ isAsciiAlnum cp2 = true ∧
        lowerCp cp1 = lowerCp cp2)) := by
  refine ⟨initialToIdToken_encode cp1 h1w h1m, ?_⟩
  intro heq
  rw [initialToIdToken_encode cp1 h1w h1m, initialToIdToken_encode cp2 h2w h2m] at heq
  by_cases a1 : isAsciiAlnum cp1 = true <;> by_cases a2 : isAsciiAlnum cp2 = true
  · rw [if_pos a1, if_pos a2] at heq
    right
    exact ⟨a1, a2, by simpa using heq⟩
  · exfalso
    rw [if_pos a1, if_neg a2] at heq
    have htl := congrArg List.tail heq
    simp only [List.tail_cons] at htl
    exact hexPad_ne_nil cp2 htl.symm
  · exfalso
    rw [if_neg a1, if_pos a2] at heq
    have htl := congrArg List.tail heq
    simp only [List.tail_cons] at htl
    exact hexPad_ne_nil cp1 htl
  · rw [if_neg a1, if_neg a2] at heq
    left
    exact hexPad_inj (by simpa using heq)

theorem c6_witness :
    (initialToIdToken (encodeCp 0x30A2) =
      if isAsciiAlnum 0x30A2 then [lowerCp 0x30A2] else 0x75 :: hexPad 0x30A2) ∧
    (initialToIdToken (encodeCp 0x30A2) = initialToIdToken (encodeCp 0x42) →
      0x30A2 = 0x42 ∨ (isAsciiAlnum 0x30A2 = true ∧ isAsciiAlnum 0x42 = true ∧
        lowerCp 0x30A2 = lowerCp 0x42)) :=
  c6_amended 0x30A2 0x42 (by decide) (by decide) (by decide) (by decide)

/-- C7 counterexample: the extraction skips only leading characters of
the skip set, not bracketed content: the initial of
`（ソフト）アイスランド` is `ソ`, not the `ア` the claim states. -/
theorem c7_counterexample :
    getInitial (js ("（ソフト）アイスランド")) = js ("ソ") ∧
    js ("ソ") ≠ js ("ア") := by decide

/-- C7 (amended): `getInitial` normalizes, trims, then skips leading
skip-set characters one code point at a time (two UTF-16 units outside
the basic plane) and returns the first non-skip code point, or the empty
string; the bracket characters themselves are skipped but not their
content, so `（ソフト）アイスランド` yields `ソ`, while `Åland`
yields `Å`. -/
theorem c7_amended :
    (∀ s : JStr, getInitial s =
      (match ((cpDecode (jsTrim (nfkc s))).dropWhile isSkipCp).head? with
       | some cp => encodeCp cp
       | none => [])) ∧
    getInitial (js ("（ソフト）アイスランド")) = js ("ソ") ∧
    getInitial (js ("Åland")) = js ("Å") := by
  refine ⟨?_, by decide, by decide⟩
  intro s
  simp only [getInitial]
  by_cases h : jsTrim (nfkc s) = []
  · rw [if_pos h, h]
    rfl
  · rw [if_neg h]
    exact getInitialLoop_eq (jsTrim (nfkc s)).length _ le_rfl

/-- C8: a katakana character classifies into the same row bucket as its
hiragana counterpart; the initial of `がんま` classifies into the same
(ka-row) bucket as the initial of `かんた`; and any character whose
normalized form is empty or falls outside the hiragana block yields no
row. -/
theorem c8_row_classification :
    (∀ cp : Nat, 0x30A1 ≤ cp → cp ≤ 0x30F6 →
      getRowMetaFromInitial [cp] = getRowMetaFromInitial [cp - 0x60]) ∧
    (getRowMetaFromInitial (getInitial (js ("がんま"))) =
        getRowMetaFromInitial (getInitial (js ("かんた"))) ∧
      getRowMetaFromInitial (getInitial (js ("がんま"))) =
        some ⟨js ("ka"), js ("か行"), js ("カ"), js ("かきくけこ")⟩) ∧
    (∀ s : JStr,
      (normalizeKanaForRow s = [] ∨
        ∀ u rest, normalizeKanaForRow s = u :: rest →
          (cpAt u rest < 0x3040 ∨ 0x309F < cpAt u rest)) →
      getRowMetaFromInitial s = none) := by
  refine ⟨?_, by decide, ?_⟩
  · have H : ∀ d : Nat, d < 0x56 →
        getRowMetaFromInitial [0x30A1 + d] = getRowMetaFromInitial [0x3041 + d] := by
      decide
    intro cp hc1 hc2
    have hd := H (cp - 0x30A1) (by omega)
    have h1 : 0x30A1 + (cp - 0x30A1) = cp := by omega
    have h2 : 0x3041 + (cp - 0x30A1) = cp - 0x60 := by omega
    rw [h1, h2] at hd
    exact hd
  · intro s hs
    cases hnk : normalizeKanaForRow s with
    | nil => simp [getRowMetaFromInitial, hnk]
    | cons u rest =>
        rcases hs with hs | hs
        · rw [hs] at hnk
          cases hnk
        · have hrange := hs u rest hnk
          simp only [getRowMetaFromInitial, hnk]
          rw [if_pos hrange]

theorem c8_witness :
    getRowMetaFromInitial [0x30AC] = getRowMetaFromInitial [0x304C] ∧
    getRowMetaFromInitial (js ("x")) = none := by
  constructor
  · have h := c8_row_classification.1 0x30AC (by decide) (by decide)
    have h2 : (0x30AC - 0x60 : Nat) = 0x304C := by norm_num
    rwa [h2] at h
  · refine c8_row_classification.2.2 (js ("x")) (Or.inr ?_)
    intro u rest hur
    have hx : normalizeKanaForRow (js ("x")) = [0x78] := by decide
    rw [hx] at hur
    injection hur with h1 h2
    subst h1
    subst h2
    left
    decide

set_option maxHeartbeats 2000000 in
theorem derivedStep_bySubregion (g : DerivedGroups) (e : CleanEntity) :
    (derivedStep g e).bySubregion =
      match contribSubregion e with
      | some kv => pushGroup g.bySubregion kv.1 kv.2
      | none => g.bySubregion := by
  simp only [derivedStep, contribSubregion]
  repeat' split
  all_goals (try simp_all)
  all_goals (rename_i heq; cases heq; rfl)

set_option maxHeartbeats 2000000 in
theorem derivedStep_byLandlocked (g : DerivedGroups) (e : CleanEntity) :
    (derivedStep g e).byLandlocked =
      match contribLandlocked e with
      | some kv => pushGroup g.byLandlocked kv.1 kv.2
      | none => g.byLandlocked := by
  simp only [derivedStep, contribLandlocked]
  repeat' split
  all_goals (try simp_all)
  all_goals (rename_i heq; cases heq; rfl)

set_option maxHeartbeats 2000000 in
theorem derivedStep_byInitialChar (g : DerivedGroups) (e : CleanEntity) :
    (derivedStep g e).byInitialChar =
      match contribInitialChar e with
      | some kv => pushGroup g.byInitialChar kv.1 kv.2
      | none => g.byInitialChar := by
  simp only [derivedStep, contribInitialChar]
  repeat' split
  all_goals (try simp_all)
  all_goals (rename_i heq; cases heq; rfl)

set_option maxHeartbeats 2000000 in
theorem derivedStep_byInitialRow (g : DerivedGroups) (e : CleanEntity) :
    (derivedStep g e).byInitialRow =
      match contribRow e with
      | some kv => pushGroup g.byInitialRow kv.1 kv.2
      | none => g.byInitialRow := by
  simp only [derivedStep, contribRow]
  repeat' split
  all_goals (try simp_all)
  all_goals (rename_i heq; cases heq; rfl)

/-- The grouping map of any axis, built by the fold and looked up at
`k`, holds exactly the initial contents followed by the per-entity
contributions of that axis. -/
theorem lookup_fold_axis [DecidableEq κ] (p : DerivedGroups → List (κ × List JStr))
    (c : CleanEntity → Option (κ × JStr))
    (hstepSome : ∀ g e kv, c e = some kv →
      p (derivedStep g e) = pushGroup (p g) kv.1 kv.2)
    (hstepNone : ∀ g e, c e = none → p (derivedStep g e) = p g)
    (es : List CleanEntity) (g : DerivedGroups) (k : κ) :
    lookupGroup k (p (es.foldl derivedStep g)) =
      match lookupGroup k (p g) with
      | some vs => some (vs ++ axisNames c es k)
      | none => if axisNames c es k = [] then none
                else some (axisNames c es k) := by
  induction es generalizing g with
  | nil =>
      simp only [List.foldl_nil, axisNames, List.filterMap_nil]
      cases lookupGroup k (p g) <;> simp
  | cons e rest ih =>
      rw [List.foldl_cons, ih]
      have hnames : axisNames c (e :: rest) k =
          (match c e with
           | some kv => if kv.1 = k then some kv.2 else none
           | none => none).toList ++ axisNames c rest k := by
        simp [axisNames, List.filterMap_cons]
        split <;> simp_all
      cases hc : c e with
      | none =>
          rw [hc] at hnames
          rw [hstepNone g e hc]
          simp only [Option.toList_none, List.nil_append] at hnames
          rw [hnames]
      | some kv =>
          rw [hc] at hnames
          dsimp only at hnames
          rw [hstepSome g e kv hc, lookupGroup_pushGroup]
          by_cases hk : kv.1 = k
          · rw [if_pos hk, Option.toList_some] at hnames
            rw [if_pos hk, ← hk]
            rw [← hk] at hnames
            rw [hnames]
            cases hgl : lookupGroup kv.1 (p g) with
            | none => simp
            | some vs => simp
          · rw [if_neg hk]
            rw [if_neg hk, Option.toList_none, List.nil_append] at hnames
            rw [hnames]

/-- Every name in any axis group is trimmed and non-empty, provided the
axis contribution only ever pushes `jsTrim e.label_ja` when it is
non-empty. -/
theorem axisNames_mem [DecidableEq κ] {c : CleanEntity → Option (κ × JStr)}
    (hc : ∀ e kv, c e = some kv → kv.2 = jsTrim e.label_ja ∧ jsTrim e.label_ja ≠ [])
    {es : List CleanEntity} {k : κ} {x : JStr}
    (hx : x ∈ axisNames c es k) : jsTrim x = x ∧ x ≠ [] := by
  obtain ⟨e, _, he⟩ := List.mem_filterMap.1 hx
  cases hco : c e with
  | none => rw [hco] at he; cases he
  | some kv =>
      rw [hco] at he
      dsimp only at he
      by_cases hk : kv.1 = k
      · rw [if_pos hk] at he
        injection he with he
        subst he
        obtain ⟨h1, h2⟩ := hc e kv hco
        rw [h1]
        exact ⟨jsTrim_jsTrim _, h2⟩
      · rw [if_neg hk] at he
        cases he

theorem contribSubregion_val : ∀ (e : CleanEntity) (kv : JStr × JStr),
    contribSubregion e = some kv →
    kv.2 = jsTrim e.label_ja ∧ jsTrim e.label_ja ≠ [] := by
  intro e kv h
  rw [contribSubregion] at h
  by_cases hcond : e.unMember = some true ∧ jsTrim e.label_ja ≠ []
  · rw [if_pos hcond] at h
    cases hr : e.region with
    | none => rw [hr] at h; cases h
    | some kk =>
        rw [hr] at h
        dsimp only at h
        by_cases hkk : kk ≠ []
        · rw [if_pos hkk] at h
          injection h with h
          subst h
          exact ⟨rfl, hcond.2⟩
        · rw [if_neg hkk] at h
          cases h
  · rw [if_neg hcond] at h
    cases h

theorem contribLandlocked_val : ∀ (e : CleanEntity) (kv : Bool × JStr),
    contribLandlocked e = some kv →
    kv.2 = jsTrim e.label_ja ∧ jsTrim e.label_ja ≠ [] := by
  intro e kv h
  rw [contribLandlocked] at h
  by_cases hcond : e.unMember = some true ∧ jsTrim e.label_ja ≠ []
  · rw [if_pos hcond] at h
    cases hr : e.landlocked with
    | none => rw [hr] at h; cases h
    | some b =>
        rw [hr] at h
        dsimp only at h
        injection h with h
        subst h
        exact ⟨rfl, hcond.2⟩
  · rw [if_neg hcond] at h
    cases h

theorem contribInitialChar_val : ∀ (e : CleanEntity) (kv : JStr × JStr),
    contribInitialChar e = some kv →
    kv.2 = jsTrim e.label_ja ∧ jsTrim e.label_ja ≠ [] := by
  intro e kv h
  rw [contribInitialChar] at h
  by_cases hcond : e.unMember = some true ∧ jsTrim e.label_ja ≠ []
  · rw [if_pos hcond] at h
    by_cases hi : getInitial (jsTrim e.label_ja) ≠ []
    · rw [if_pos hi] at h
      injection h with h
      subst h
      exact ⟨rfl, hcond.2⟩
    · rw [if_neg hi] at h
      cases h
  · rw [if_neg hcond] at h
    cases h

theorem contribRow_val : ∀ (e : CleanEntity) (kv : JStr × JStr),
    contribRow e = some kv →
    kv.2 = jsTrim e.label_ja ∧ jsTrim e.label_ja ≠ [] := by
  intro e kv h
  rw [contribRow] at h
  by_cases hcond : e.unMember = some true ∧ jsTrim e.label_ja ≠ []
  · rw [if_pos hcond] at h
    cases hr : (if getInitial (jsTrim e.label_ja) = [] then none
        else getRowMetaFromInitial (getInitial (jsTrim e.label_ja))) with
    | none => rw [hr] at h; cases h
    | some row =>
        rw [hr] at h
        dsimp only at h
        injection h with h
        subst h
        exact ⟨rfl, hcond.2⟩
  · rw [if_neg hcond] at h
    cases h

theorem subregionThemeFor_answers (le : JStr → JStr → Bool)
    (es : List CleanEntity) (k : JStr) :
    (subregionThemeFor le es k).map Theme.answers =
      if 10 ≤ (uniqSortedJa le (subregionNames es k)).length ∧ subregionNames es k ≠ []
      then some (uniqSortedJa le (subregionNames es k)) else none := by
  simp only [subregionThemeFor, subregionNames]
  rw [lookup_fold_axis DerivedGroups.bySubregion contribSubregion
    (fun g e kv hkv => by rw [derivedStep_bySubregion, hkv])
    (fun g e hkv => by rw [derivedStep_bySubregion, hkv])]
  have hempty :
      lookupGroup k (⟨[], [], [], [], []⟩ : DerivedGroups).bySubregion = none := rfl
  rw [hempty]
  by_cases hn : axisNames contribSubregion es k = []
  · rw [if_pos hn]
    simp [hn]
  · rw [if_neg hn]
    simp only [subregionThemeOf]
    by_cases hlen : (uniqSortedJa le (axisNames contribSubregion es k)).length < 10
    · simp [hlen, Nat.not_le.2 hlen]
    · simp [hlen, Nat.le_of_not_lt hlen, hn]

theorem landlockedThemeFor_answers (le : JStr → JStr → Bool)
    (es : List CleanEntity) (b : Bool) :
    (landlockedThemeFor le es b).map Theme.answers =
      if 10 ≤ (uniqSortedJa le (landlockedNames es b)).length ∧ landlockedNames es b ≠ []
      then some (uniqSortedJa le (landlockedNames es b)) else none := by
  simp only [landlockedThemeFor, landlockedNames]
  rw [lookup_fold_axis DerivedGroups.byLandlocked contribLandlocked
    (fun g e kv hkv => by rw [derivedStep_byLandlocked, hkv])
    (fun g e hkv => by rw [derivedStep_byLandlocked, hkv])]
  have hempty :
      lookupGroup b (⟨[], [], [], [], []⟩ : DerivedGroups).byLandlocked = none := rfl
  rw [hempty]
  by_cases hn : axisNames contribLandlocked es b = []
  · rw [if_pos hn]
    simp [hn]
  · rw [if_neg hn]
    simp only [landlockedThemeOf]
    by_cases hlen : (uniqSortedJa le (axisNames contribLandlocked es b)).length < 10
    · simp [hlen, Nat.not_le.2 hlen]
    · simp [hlen, Nat.le_of_not_lt hlen, hn]

theorem initialCharThemeFor_answers (le : JStr → JStr → Bool)
    (es : List CleanEntity) (k : JStr) :
    (initialCharThemeFor le es k).map Theme.answers =
      if 10 ≤ (uniqSortedJa le (initialCharNames es k)).length ∧
         initialCharNames es k ≠ [] ∧ initialToIdToken k ≠ []
      then some (uniqSortedJa le (initialCharNames es k)) else none := by
  simp only [initialCharThemeFor, initialCharNames]
  rw [lookup_fold_axis DerivedGroups.byInitialChar contribInitialChar
    (fun g e kv hkv => by rw [derivedStep_byInitialChar, hkv])
    (fun g e hkv => by rw [derivedStep_byInitialChar, hkv])]
  have hempty :
      lookupGroup k (⟨[], [], [], [], []⟩ : DerivedGroups).byInitialChar = none := rfl
  rw [hempty]
  by_cases hn : axisNames contribInitialChar es k = []
  · rw [if_pos hn]
    simp [hn]
  · rw [if_neg hn]
    simp only [initialCharThemeOf]
    by_cases hlen : (uniqSortedJa le (axisNames contribInitialChar es k)).length < 10
    · simp [hlen, Nat.not_le.2 hlen]
    · by_cases ht : initialToIdToken k = []
      · simp [hlen, ht]
      · simp [hlen, Nat.le_of_not_lt hlen, hn, ht]

theorem initialRowThemeFor_answers (le : JStr → JStr → Bool)
    (es : List CleanEntity) (row : RowMeta) :
    (initialRowThemeFor le es row).map Theme.answers =
      if 10 ≤ (uniqSortedJa le (rowNames es row.token)).length ∧ rowNames es row.token ≠ []
      then some (uniqSortedJa le (rowNames es row.token)) else none := by
  simp only [initialRowThemeFor, initialRowThemeOf, rowNames]
  rw [lookup_fold_axis DerivedGroups.byInitialRow contribRow
    (fun g e kv hkv => by rw [derivedStep_byInitialRow, hkv])
    (fun g e hkv => by rw [derivedStep_byInitialRow, hkv])]
  have hempty :
      lookupGroup row.token (⟨[], [], [], [], []⟩ : DerivedGroups).byInitialRow = none := rfl
  rw [hempty]
  by_cases hn : axisNames contribRow es row.token = []
  · rw [if_pos hn]
    simp [hn]
  · rw [if_neg hn]
    by_cases hlen : (uniqSortedJa le (axisNames contribRow es row.token)).length < 10
    · simp [hlen, Nat.not_le.2 hlen]
    · simp [hlen, Nat.le_of_not_lt hlen, hn]

/-- C9: for every grouping key on every derivation axis (region,
subregion, landlocked, initial character, kana row), the derived theme's
answers are exactly the trimmed non-empty localized names of the group's
member entities — deduplicated (no duplicates remain), sorted by the
locale comparator — and a key with fewer than 10 distinct such names
produces no theme at all, while one with at least 10 produces the theme
whose answers are exactly that sorted deduplicated list (the
initial-character axis additionally suppresses a key with an empty id
token). -/
theorem c9_group_answers (le : JStr → JStr → Bool)
    (htrans : ∀ a b c, le a b = true → le b c = true → le a c = true)
    (htotal : ∀ a b, (le a b || le b a) = true)
    (es : List CleanEntity) (k : JStr) :
    (∀ a, a ∈ uniqSortedJa le (continentNames es k) ↔ a ∈ continentNames es k) ∧
    (uniqSortedJa le (continentNames es k)).Nodup ∧
    List.Pairwise (fun a b => le a b = true) (uniqSortedJa le (continentNames es k)) ∧
    ((continentThemeFor le es k).map Theme.answers =
      if 10 ≤ (uniqSortedJa le (continentNames es k)).length ∧ continentNames es k ≠ []
      then some (uniqSortedJa le (continentNames es k)) else none) ∧
    (∀ (k2 : JStr) (b : Bool) (row : RowMeta) (m : List (JStr × List JStr))
      (ns : List JStr), (uniqSortedJa le ns).length < 10 →
      continentThemeOf le k2 ns = none ∧ subregionThemeOf le k2 ns = none ∧
      landlockedThemeOf le b ns = none ∧ initialCharThemeOf le k2 ns = none ∧
      (lookupGroup row.token m = some ns → initialRowThemeOf le m row = none)) ∧
    (∀ ks : JStr,
      (∀ a, a ∈ uniqSortedJa le (subregionNames es ks) ↔ a ∈ subregionNames es ks) ∧
      (uniqSortedJa le (subregionNames es ks)).Nodup ∧
      List.Pairwise (fun a b => le a b = true) (uniqSortedJa le (subregionNames es ks)) ∧
      ((subregionThemeFor le es ks).map Theme.answers =
        if 10 ≤ (uniqSortedJa le (subregionNames es ks)).length ∧ subregionNames es ks ≠ []
        then some (uniqSortedJa le (subregionNames es ks)) else none)) ∧
    (∀ b : Bool,
      (∀ a, a ∈ uniqSortedJa le (landlockedNames es b) ↔ a ∈ landlockedNames es b) ∧
      (uniqSortedJa le (landlockedNames es b)).Nodup ∧
      List.Pairwise (fun a b2 => le a b2 = true) (uniqSortedJa le (landlockedNames es b)) ∧
      ((landlockedThemeFor le es b).map Theme.answers =
        if 10 ≤ (uniqSortedJa le (landlockedNames es b)).length ∧ landlockedNames es b ≠ []
        then some (uniqSortedJa le (landlockedNames es b)) else none)) ∧
    (∀ kc : JStr,
      (∀ a, a ∈ uniqSortedJa le (initialCharNames es kc) ↔ a ∈ initialCharNames es kc) ∧
      (uniqSortedJa le (initialCharNames es kc)).Nodup ∧
      List.Pairwise (fun a b => le a b = true) (uniqSortedJa le (initialCharNames es kc)) ∧
      ((initialCharThemeFor le es kc).map Theme.answers =
        if 10 ≤ (uniqSortedJa le (initialCharNames es kc)).length ∧
           initialCharNames es kc ≠ [] ∧ initialToIdToken kc ≠ []
        then some (uniqSortedJa le (initialCharNames es kc)) else none)) ∧
    (∀ row : RowMeta,
      (∀ a, a ∈ uniqSortedJa le (rowNames es row.token) ↔ a ∈ rowNames es row.token) ∧
      (uniqSortedJa le (rowNames es row.token)).Nodup ∧
      List.Pairwise (fun a b => le a b = true) (uniqSortedJa le (rowNames es row.token)) ∧
      ((initialRowThemeFor le es row).map Theme.answers =
        if 10 ≤ (uniqSortedJa le (rowNames es row.token)).length ∧ rowNames es row.token ≠ []
        then some (uniqSortedJa le (rowNames es row.token)) else none)) := by
  refine ⟨fun _ => uniqSortedJa_mem (fun _ hx => continentNames_mem hx),
    uniqSortedJa_nodup le _,
    uniqSortedJa_sorted le htrans htotal _,
    continentThemeFor_answers le es k, ?_,
    fun ks => ⟨fun _ => uniqSortedJa_mem (fun _ hx => axisNames_mem contribSubregion_val hx),
      uniqSortedJa_nodup le _, uniqSortedJa_sorted le htrans htotal _,
      subregionThemeFor_answers le es ks⟩,
    fun b => ⟨fun _ => uniqSortedJa_mem (fun _ hx => axisNames_mem contribLandlocked_val hx),
      uniqSortedJa_nodup le _, uniqSortedJa_sorted le htrans htotal _,
      landlockedThemeFor_answers le es b⟩,
    fun kc => ⟨fun _ => uniqSortedJa_mem (fun _ hx => axisNames_mem contribInitialChar_val hx),
      uniqSortedJa_nodup le _, uniqSortedJa_sorted le htrans htotal _,
      initialCharThemeFor_answers le es kc⟩,
    fun row => ⟨fun _ => uniqSortedJa_mem (fun _ hx => axisNames_mem contribRow_val hx),
      uniqSortedJa_nodup le _, uniqSortedJa_sorted le htrans htotal _,
      initialRowThemeFor_answers le es row⟩⟩
  intro k2 b row m ns hlen
  refine ⟨?_, ?_, ?_, ?_, ?_⟩
  · rw [continentThemeOf]
    simp only [if_pos hlen]
  · rw [subregionThemeOf]
    simp only [if_pos hlen]
  · rw [landlockedThemeOf]
    simp only [if_pos hlen]
  · rw [initialCharThemeOf]
    simp only [if_pos hlen]
  · intro hm
    rw [initialRowThemeOf, hm]
    simp only [if_pos hlen]

theorem c9_witness :
    ((continentThemeFor lexLe tenAsia (js ("Asia"))).map Theme.answers).isSome = true ∧
    js ("あ") ∈ uniqSortedJa lexLe (continentNames tenAsia (js ("Asia"))) ∧
    (subregionThemeFor lexLe tenAsia (js ("Asia"))).map Theme.answers = none ∧
    (landlockedThemeFor lexLe tenAsia true).map Theme.answers = none ∧
    (initialCharThemeFor lexLe tenAsia (js ("あ"))).map Theme.answers = none ∧
    (initialRowThemeFor lexLe tenAsia
      ⟨js ("a"), js ("あ行"), js ("ア"), js ("あいうえおゔ")⟩).map Theme.answers = none := by
  have h := c9_group_answers lexLe lexLe_trans lexLe_total tenAsia (js ("Asia"))
  refine ⟨?_, ?_, ?_, ?_, ?_, ?_⟩
  · rw [h.2.2.2.1, if_pos (by decide)]
    rfl
  · exact (h.1 (js ("あ"))).2 (by decide)
  · rw [(h.2.2.2.2.2.1 (js ("Asia"))).2.2.2, if_neg (by decide)]
  · rw [(h.2.2.2.2.2.2.1 true).2.2.2, if_neg (by decide)]
  · rw [(h.2.2.2.2.2.2.2.1 (js ("あ"))).2.2.2, if_neg (by decide)]
  · rw [(h.2.2.2.2.2.2.2.2
      ⟨js ("a"), js ("あ行"), js ("ア"), js ("あいうえおゔ")⟩).2.2.2, if_neg (by decide)]
